import Mathlib

/-!
Verification of the Auto-Research-Agent pipeline core.

The TypeScript sources are shallowly embedded: every JavaScript string is a
Lean `String` viewed through its `data : List Char`, numbers are `Nat`/`Int`,
`undefined`-able fields are `Option`, and each network or model call is an
oracle argument (`String → Except String _` and the like), so that the pure
control flow of the services is translated exactly.  JS helpers such as
`trim`, `toLowerCase`, `substring`, `split`, `includes` and decimal number
rendering are re-implemented structurally below so that all definitions are
computable and kernel-reducible.
-/

open List

/-- The JS whitespace class as used by trim and the regex class backslash-s
(restricted to the ASCII characters that can actually occur here). -/
def jsWs (c : Char) : Bool :=
  c = ' ' || c = '\t' || c = '\n' || c = '\r' || c = '\x0b' || c = '\x0c'

/-- ASCII lowering of one character, the effect of `toLowerCase` on the
character set appearing in this code base. -/
def charLower (c : Char) : Char :=
  if 'A' ≤ c ∧ c ≤ 'Z' then Char.ofNat (c.toNat + 32) else c

/-- Embedding of `s.toLowerCase()`. -/
def jsToLower (s : String) : String :=
  ⟨s.data.map charLower⟩

/-- Embedding of `s.trim()`. -/
def jsTrim (s : String) : String :=
  ⟨((s.data.dropWhile jsWs).reverse.dropWhile jsWs).reverse⟩

/-- Embedding of `s.substring(0, n)`. -/
def jsSubstring (s : String) (n : Nat) : String :=
  ⟨s.data.take n⟩

/-- Splitting a character list at newline characters; the spine of
`s.split('\n')`. -/
def splitNlChars : List Char → List (List Char)
  | [] => [[]]
  | c :: cs =>
      if c = '\n' then [] :: splitNlChars cs
      else
        match splitNlChars cs with
        | h :: t => (c :: h) :: t
        | [] => [[c]]

/-- Embedding of `s.split('\n')`. -/
def splitNl (s : String) : List String :=
  (splitNlChars s.data).map (fun l => ⟨l⟩)

/-- Does `pat` occur at the start of `l`. -/
def startsWithList : List Char → List Char → Bool
  | [], _ => true
  | _ :: _, [] => false
  | p :: ps, c :: cs => p = c && startsWithList ps cs

/-- Does `pat` occur anywhere in `l`; the spine of `s.includes(pat)`. -/
def isSubList (pat : List Char) : List Char → Bool
  | [] => pat.isEmpty
  | c :: cs => startsWithList pat (c :: cs) || isSubList pat cs

/-- Embedding of `s.includes(pat)`. -/
def containsSub (s pat : String) : Bool :=
  isSubList pat.data s.data

/-- Decimal digits of a natural number, fuelled so that the definition is
structural (the fuel `n + 1` always suffices). -/
def decStrGo : Nat → Nat → List Char
  | 0, _ => []
  | fuel + 1, n =>
      if n < 10 then [Nat.digitChar n]
      else decStrGo fuel (n / 10) ++ [Nat.digitChar (n % 10)]

/-- Embedding of JS template interpolation of a non-negative number. -/
def decStr (n : Nat) : String :=
  ⟨decStrGo (n + 1) n⟩

/-- Embedding of `array.join(', ')` for string arrays. -/
def joinComma : List String → String
  | [] => ""
  | [x] => x
  | x :: y :: t => x ++ ", " ++ joinComma (y :: t)

/-- Keep-first deduplication by a string key, the common shape of the
`Set`-based filters in `utils/index.ts` and the agent: an element is kept
iff its key has not been seen before. -/
def dedupAux {α : Type} (key : α → String) (seen : List String) : List α → List α
  | [] => []
  | x :: xs =>
      if key x ∈ seen then dedupAux key seen xs
      else x :: dedupAux key (key x :: seen) xs

/-- Embedding of `[...new Set(list)]` on strings (insertion order, first
occurrence kept). -/
def dedupStr (l : List String) : List String :=
  dedupAux (fun s => s) [] l

-- Basic facts about the helpers.

theorem splitNlChars_ne_nil (l : List Char) : splitNlChars l ≠ [] := by
  induction l with
  | nil => simp [splitNlChars]
  | cons c cs ih =>
      simp only [splitNlChars]
      split
      · simp
      · cases h : splitNlChars cs with
        | nil => simp
        | cons a t => simp [h]

theorem splitNlChars_of_no_nl {l : List Char} (h : '\n' ∉ l) :
    splitNlChars l = [l] := by
  induction l with
  | nil => rfl
  | cons c cs ih =>
      simp only [List.mem_cons, not_or] at h
      simp only [splitNlChars]
      rw [if_neg (by simpa using (Ne.symm h.1)), ih h.2]

theorem splitNl_of_no_nl {s : String} (h : '\n' ∉ s.data) :
    splitNl s = [s] := by
  simp [splitNl, splitNlChars_of_no_nl h]

theorem dedupAux_sublist {α : Type} (key : α → String) (seen : List String) (l : List α) :
    dedupAux key seen l <+ l := by
  induction l generalizing seen with
  | nil => simp [dedupAux]
  | cons x xs ih =>
      simp only [dedupAux]
      split
      · exact (ih seen).cons x
      · exact (ih (key x :: seen)).cons₂ x

theorem dedupAux_key_not_mem {α : Type} (key : α → String) (seen : List String)
    (l : List α) : ∀ y ∈ dedupAux key seen l, key y ∉ seen := by
  induction l generalizing seen with
  | nil => simp [dedupAux]
  | cons x xs ih =>
      simp only [dedupAux]
      by_cases hx : key x ∈ seen
      · rw [if_pos hx]
        exact ih seen
      · rw [if_neg hx]
        intro y hy
        rcases List.mem_cons.mp hy with rfl | hy
        · exact hx
        · have := ih (key x :: seen) y hy
          simp only [List.mem_cons, not_or] at this
          exact this.2

theorem dedupAux_pairwise {α : Type} (key : α → String) (seen : List String)
    (l : List α) : (dedupAux key seen l).Pairwise (fun a b => key a ≠ key b) := by
  induction l generalizing seen with
  | nil => simp [dedupAux]
  | cons x xs ih =>
      simp only [dedupAux]
      split
      · exact ih seen
      · refine List.Pairwise.cons ?_ (ih (key x :: seen))
        intro y hy
        have := dedupAux_key_not_mem key (key x :: seen) xs y hy
        simp only [List.mem_cons, not_or] at this
        exact fun hk => this.1 hk.symm

theorem dedupAux_find {α : Type} (key : α → String) (seen : List String)
    (l : List α) : ∀ y, key y ∉ seen → y ∈ dedupAux key seen l →
    l.find? (fun z => key z == key y) = some y := by
  induction l generalizing seen with
  | nil => simp [dedupAux]
  | cons x xs ih =>
      intro y hseen hy
      simp only [dedupAux] at hy
      by_cases hx : key x ∈ seen
      · rw [if_pos hx] at hy
        have hne : key x ≠ key y := fun h => hseen (h ▸ hx)
        rw [List.find?_cons_of_neg _ (by simpa using hne)]
        exact ih seen y hseen hy
      · rw [if_neg hx] at hy
        rcases List.mem_cons.mp hy with rfl | hy
        · exact List.find?_cons_of_pos _ (by simp)
        · have hne : key y ≠ key x := by
            have := dedupAux_key_not_mem key (key x :: seen) xs y hy
            simp only [List.mem_cons, not_or] at this
            exact this.1
          rw [List.find?_cons_of_neg _ (by simpa using fun h => hne h.symm)]
          exact ih (key x :: seen) y (by simp [hne, hseen]) hy

/-! ## Query planner (`SearchService.generateSearchQueries` and the primary
model path of `AutoResearchAgent.generateSearchQueries`) -/

/-- Research depth tier. -/
inductive Depth
  | basic
  | intermediate
  | comprehensive
deriving DecidableEq

/-- Query budget of the primary (model) path:
`depth === 'comprehensive' ? 7 : depth === 'basic' ? 3 : 5`. -/
def queryCount : Depth → Nat
  | Depth.comprehensive => 7
  | Depth.basic => 3
  | Depth.intermediate => 5

/-- Embedding of `SearchService.generateSearchQueries`, the deterministic
fallback generator (searchService.ts lines 331-359). -/
def generateSearchQueries (topic : String) (depth : Depth) : List String :=
  match depth with
  | Depth.basic =>
      [topic,
       topic ++ " overview",
       topic ++ " introduction",
       topic ++ " academic research"]
  | Depth.intermediate =>
      [topic,
       topic ++ " overview",
       topic ++ " key concepts",
       topic ++ " research papers",
       topic ++ " recent developments",
       topic ++ " scholarly articles"]
  | Depth.comprehensive =>
      [topic,
       topic ++ " comprehensive guide",
       topic ++ " research papers",
       topic ++ " peer-reviewed studies",
       topic ++ " case studies",
       topic ++ " latest trends",
       topic ++ " expert analysis",
       topic ++ " statistics and data",
       topic ++ " literature review",
       topic ++ " methodology"]

/-- Length of the fallback list actually produced per depth. -/
def fallbackCount : Depth → Nat
  | Depth.basic => 4
  | Depth.intermediate => 6
  | Depth.comprehensive => 10

/-- The primary model path after the JSON response has been parsed
(agent lines 152-159): a parsed non-empty array is truncated to the
requested count; parse failure or an empty array falls through to the
fallback.  `parsed` abstracts `JSON.parse` of the cleaned model response. -/
def primaryQueries (parsed : Option (List String)) (depth : Depth) :
    Option (List String) :=
  match parsed with
  | some qs => if qs.length > 0 then some (qs.take (queryCount depth)) else none
  | none => none

/-- Full query generation: primary path, else deterministic fallback
(agent lines 117-169). -/
def generateSearchQueriesFull (topic : String) (depth : Depth)
    (parsed : Option (List String)) : List String :=
  match primaryQueries parsed depth with
  | some qs => qs
  | none => generateSearchQueries topic depth

theorem string_append_ne {t s₁ s₂ : String} (h : s₁ ≠ s₂) : t ++ s₁ ≠ t ++ s₂ := by
  intro he
  apply h
  have hd : (t ++ s₁).data = (t ++ s₂).data := by rw [he]
  rw [String.data_append, String.data_append] at hd
  exact String.ext (List.append_cancel_left hd)

theorem string_ne_append_self {t s : String} (h : s ≠ "") : t ≠ t ++ s := by
  intro he
  apply h
  apply String.ext
  have hd : (t ++ s).data = t.data := by rw [← he]
  rw [String.data_append] at hd
  have hlen := congrArg List.length hd
  rw [List.length_append] at hlen
  have hz : s.data.length = 0 := by omega
  simpa using List.eq_nil_of_length_eq_zero hz

theorem string_data_sub_append (t s : String) : t.data <:+: (t ++ s).data :=
  ⟨[], s.data, by simp [String.data_append]⟩

theorem append_ne_empty_of_ne {t : String} (s : String) (h : t ≠ "") :
    t ++ s ≠ "" := by
  intro he
  apply h
  apply String.ext
  have hd : (t ++ s).data = ("" : String).data := by rw [he]
  rw [String.data_append] at hd
  have := congrArg List.length hd
  simp [List.length_append] at this
  simpa using List.eq_nil_of_length_eq_zero (by simpa using this.1)

theorem mem_fallback_exists {q topic : String} {depth : Depth}
    (hq : q ∈ generateSearchQueries topic depth) : ∃ s, q = topic ++ s := by
  have htop : topic = topic ++ "" := by
    apply String.ext
    simp [String.data_append]
  cases depth with
  | basic =>
      simp only [generateSearchQueries, List.mem_cons, List.not_mem_nil, or_false] at hq
      rcases hq with rfl | rfl | rfl | rfl
      · exact ⟨"", htop⟩
      all_goals exact ⟨_, rfl⟩
  | intermediate =>
      simp only [generateSearchQueries, List.mem_cons, List.not_mem_nil, or_false] at hq
      rcases hq with rfl | rfl | rfl | rfl | rfl | rfl
      · exact ⟨"", htop⟩
      all_goals exact ⟨_, rfl⟩
  | comprehensive =>
      simp only [generateSearchQueries, List.mem_cons, List.not_mem_nil, or_false] at hq
      rcases hq with rfl | rfl | rfl | rfl | rfl | rfl | rfl | rfl | rfl | rfl
      · exact ⟨"", htop⟩
      all_goals exact ⟨_, rfl⟩

/-- C1 counterexample: the deterministic fallback generator returns four
queries at depth basic, not the three the claim states (similarly six at
intermediate and ten at comprehensive). -/
theorem c1_counterexample :
    (generateSearchQueries "quantum computing" Depth.basic).length ≠ 3 := by
  decide

/-- C1 (amended): the deterministic fallback returns exactly 4 / 6 / 10
queries for basic / intermediate / comprehensive; they are pairwise
distinct, every one of them contains the original topic as a substring,
the topic itself is the first query, all queries are non-empty whenever
the topic is non-empty, and the primary model path returns at most
3 / 5 / 7 queries (the parsed model array truncated). -/
theorem c1_query_generation (topic : String) (depth : Depth) (h : topic ≠ "") :
    (generateSearchQueries topic depth).length = fallbackCount depth
    ∧ (generateSearchQueries topic depth).Pairwise (fun a b => a ≠ b)
    ∧ (∀ q ∈ generateSearchQueries topic depth, topic.data <:+: q.data)
    ∧ (∀ q ∈ generateSearchQueries topic depth, q ≠ "")
    ∧ (generateSearchQueries topic depth).head? = some topic
    ∧ (∀ parsed qs, primaryQueries parsed depth = some qs →
        qs.length ≤ queryCount depth) := by
  refine ⟨?_, ?_, ?_, ?_, ?_, ?_⟩
  · cases depth <;> rfl
  · cases depth <;>
      (simp only [generateSearchQueries, List.pairwise_cons, List.mem_cons,
        List.not_mem_nil, or_false, forall_eq_or_imp, forall_eq];
       and_intros <;>
       first
        | exact List.Pairwise.nil
        | trivial
        | (intro a hf; exact hf.elim)
        | (refine string_ne_append_self ?_; decide)
        | (refine string_append_ne ?_; decide))
  · intro q hq
    obtain ⟨s, rfl⟩ := mem_fallback_exists hq
    exact string_data_sub_append topic s
  · intro q hq
    obtain ⟨s, rfl⟩ := mem_fallback_exists hq
    exact append_ne_empty_of_ne s h
  · cases depth <;> rfl
  · intro parsed qs hqs
    match parsed with
    | none => simp [primaryQueries] at hqs
    | some l =>
        simp only [primaryQueries] at hqs
        split at hqs
        · cases hqs
          exact List.length_take_le _ _
        · cases hqs

/-- C1 witness: the amended property instantiated at a concrete topic. -/
theorem c1_witness :
    ("ai" : String) ≠ ""
    ∧ ((generateSearchQueries "ai" Depth.basic).length = fallbackCount Depth.basic
      ∧ (generateSearchQueries "ai" Depth.basic).Pairwise (fun a b => a ≠ b)
      ∧ (∀ q ∈ generateSearchQueries "ai" Depth.basic, ("ai" : String).data <:+: q.data)
      ∧ (∀ q ∈ generateSearchQueries "ai" Depth.basic, q ≠ "")
      ∧ (generateSearchQueries "ai" Depth.basic).head? = some "ai"
      ∧ (∀ parsed qs, primaryQueries parsed Depth.basic = some qs →
          qs.length ≤ queryCount Depth.basic)) :=
  ⟨by decide, c1_query_generation "ai" Depth.basic (by decide)⟩

/-! ## Multi-source search aggregator (`SearchService.search`,
`SearchService.prioritizeAndDeduplicate`, `removeDuplicates`) -/

/-- Embedding of the `SearchResult` record from `types/index.ts`; the
relevance score may be absent (`result.relevanceScore || 0`). -/
structure SearchResult where
  title : String
  url : String
  snippet : String
  publishDate : Option String := none
  author : Option String := none
  relevanceScore : Option Int := none
deriving DecidableEq

/-- The score actually used everywhere: `result.relevanceScore || 0`. -/
def scoreOf (r : SearchResult) : Int :=
  r.relevanceScore.getD 0

/-- Embedding of the generic `ToolResult<T>` shape. -/
structure ToolResult (α : Type) where
  success : Bool
  data : Option α := none
  error : Option String := none
deriving DecidableEq

/-- Embedding of URL normalization inside `removeDuplicates`
(utils/index.ts line 111): lowercase, strip one trailing slash. -/
def normalizeUrl (u : String) : String :=
  let low := jsToLower u
  if low.data.getLast? = some '/' then ⟨low.data.dropLast⟩ else low

/-- Embedding of `removeDuplicates` (utils/index.ts lines 108-118). -/
def removeDuplicates (l : List SearchResult) : List SearchResult :=
  dedupAux (fun r => normalizeUrl r.url) [] l

/-- Embedding of the score-boosting pass of `prioritizeAndDeduplicate`
(searchService.ts lines 81-97). -/
def boostResult (r : SearchResult) : SearchResult :=
  let score := scoreOf r
    + (if containsSub r.url "arxiv.org" then 10 else 0)
    + (if containsSub r.url "semanticscholar.org" then 10 else 0)
    + (if containsSub r.url "doi.org" || containsSub r.url "crossref.org" then 10 else 0)
    + (if containsSub r.url "wikipedia.org" then 5 else 0)
    + (if containsSub r.url ".edu" then 7 else 0)
    + (if containsSub r.url ".gov" then 6 else 0)
    + (if containsSub (jsToLower r.snippet) "peer-reviewed"
          || containsSub (jsToLower r.snippet) "journal" then 5 else 0)
  { r with relevanceScore := some score }

/-- The comparator `(a, b) => (b.relevanceScore || 0) - (a.relevanceScore || 0)`
as a total Boolean preorder: `a` may stay before `b` iff the score of `a` is
at least the score of `b` (JS `Array.prototype.sort` is stable). -/
def descLe (a b : SearchResult) : Bool :=
  decide (scoreOf b ≤ scoreOf a)

/-- Embedding of `prioritizeAndDeduplicate` (searchService.ts lines 79-104):
boost, sort descending (stable), deduplicate by normalized URL keeping the
first occurrence, truncate. -/
def prioritizeAndDeduplicate (results : List SearchResult) (maxResults : Nat) :
    List SearchResult :=
  let scored := results.map boostResult
  let sorted := scored.mergeSort descLe
  (removeDuplicates sorted).take maxResults

/-- Embedding of `SearchService.search` (searchService.ts lines 17-74) above
the backend calls: `outcomes` lists, in order, the settled result of each
backend promise launched by `search` (`Promise.allSettled`); a rejected
backend contributes an `Except.error`.  Results of fulfilled non-empty
backends are concatenated; if nothing was gathered the service reports a
failure, otherwise the ranked and deduplicated list.  The per-outcome
accumulation (`if (result.status === 'fulfilled' && result.value.length > 0)
results.push(...)`) is `gatherStep`. -/
def gatherStep (acc : List SearchResult)
    (o : Except String (List SearchResult)) : List SearchResult :=
  match o with
  | Except.ok v => if v.length > 0 then acc ++ v else acc
  | Except.error _ => acc

/-- The aggregate search result as a function of the settled backend
outcomes; see `gatherStep` above. -/
def searchModel (outcomes : List (Except String (List SearchResult)))
    (maxResults : Nat) : ToolResult (List SearchResult) :=
  let results := outcomes.foldl gatherStep []
  if results.length = 0 then
    { success := false, error := some "No search results from any source" }
  else
    { success := true, data := some (prioritizeAndDeduplicate results maxResults) }

/-- Does a settled backend outcome contribute at least one result. -/
def contributes (o : Except String (List SearchResult)) : Bool :=
  match o with
  | Except.ok v => !v.isEmpty
  | Except.error _ => false

theorem descLe_trans (a b c : SearchResult) :
    descLe a b → descLe b c → descLe a c := by
  simp only [descLe, decide_eq_true_eq]
  omega

theorem descLe_total (a b : SearchResult) : descLe a b || descLe b a := by
  simp only [descLe]
  rcases Int.le_total (scoreOf a) (scoreOf b) with h | h <;> simp [h]


theorem gather_acc (outs : List (Except String (List SearchResult)))
    (acc : List SearchResult) :
    outs.foldl gatherStep acc = acc ++ outs.foldl gatherStep [] := by
  induction outs generalizing acc with
  | nil => simp
  | cons o t ih =>
      simp only [List.foldl_cons]
      rw [ih (gatherStep acc o), ih (gatherStep [] o)]
      cases o with
      | ok v =>
          simp only [gatherStep]
          by_cases hv : v.length > 0
          · rw [if_pos hv, if_pos hv]
            simp [List.append_assoc]
          · rw [if_neg hv, if_neg hv]
            simp
      | error e => simp [gatherStep]

theorem gather_nil_iff (outs : List (Except String (List SearchResult))) :
    outs.foldl gatherStep [] = [] ↔ ∀ o ∈ outs, contributes o = false := by
  induction outs with
  | nil => simp
  | cons o t ih =>
      simp only [List.foldl_cons]
      rw [gather_acc t (gatherStep [] o)]
      cases o with
      | ok v =>
          simp only [gatherStep]
          by_cases hv : v.length > 0
          · rw [if_pos hv]
            simp only [List.nil_append, List.append_eq_nil]
            constructor
            · rintro ⟨hve, -⟩
              exact absurd hve (by intro hh; simp [hh] at hv)
            · intro hall
              have hc := hall (Except.ok v) (List.mem_cons_self _ _)
              exfalso
              cases v with
              | nil => simp at hv
              | cons a t2 => simp [contributes] at hc
          · rw [if_neg hv]
            have hve : v = [] := by
              cases v with
              | nil => rfl
              | cons a t2 => simp at hv
            subst hve
            simp [ih, contributes]
      | error e =>
          simp [gatherStep, ih, contributes]

/-- C3: the aggregate search fails exactly when no settled backend outcome
contributes a result, it succeeds as soon as one backend returns at least
one result, and a rejected backend is invisible to the aggregate: deleting
it from the outcome list does not change the result. -/
theorem c3_search_soft_failure (outs : List (Except String (List SearchResult)))
    (k : Nat) :
    ((searchModel outs k).success = false ↔ ∀ o ∈ outs, contributes o = false)
    ∧ (∀ pre post e,
        searchModel (pre ++ Except.error e :: post) k = searchModel (pre ++ post) k) := by
  constructor
  · simp only [searchModel]
    by_cases hz : (outs.foldl gatherStep []).length = 0
    · rw [if_pos hz]
      constructor
      · intro _
        exact (gather_nil_iff outs).mp (List.eq_nil_of_length_eq_zero hz)
      · intro _
        rfl
    · rw [if_neg hz]
      constructor
      · intro hfalse
        simp at hfalse
      · intro hall
        exact absurd (by rw [(gather_nil_iff outs).mpr hall]; rfl :
          (outs.foldl gatherStep []).length = 0) hz
  · intro pre post e
    simp only [searchModel]
    have hfold : (pre ++ Except.error e :: post).foldl gatherStep ([] : List SearchResult)
        = (pre ++ post).foldl gatherStep [] := by
      rw [List.foldl_append, List.foldl_append, List.foldl_cons]
      rfl
    rw [hfold]

/-- C2: after ranking and deduplication no two entries share a normalized
URL, the list is sorted by non-increasing relevance score, every kept entry
is the first occurrence of its normalized URL in the sorted scored list
(hence the highest-scoring one), and the output length respects the budget. -/
theorem c2_prioritize_and_deduplicate (results : List SearchResult)
    (budget : Nat) (h : 0 < budget) :
    (prioritizeAndDeduplicate results budget).Pairwise
      (fun a b => normalizeUrl a.url ≠ normalizeUrl b.url)
    ∧ (prioritizeAndDeduplicate results budget).Pairwise
      (fun a b => scoreOf b ≤ scoreOf a)
    ∧ (∀ y ∈ prioritizeAndDeduplicate results budget,
        ((results.map boostResult).mergeSort descLe).find?
          (fun z => normalizeUrl z.url == normalizeUrl y.url) = some y)
    ∧ (prioritizeAndDeduplicate results budget).length ≤ budget := by
  have hsub1 : removeDuplicates ((results.map boostResult).mergeSort descLe)
      <+ (results.map boostResult).mergeSort descLe :=
    dedupAux_sublist _ _ _
  have hsub2 : prioritizeAndDeduplicate results budget
      <+ removeDuplicates ((results.map boostResult).mergeSort descLe) :=
    List.take_sublist _ _
  refine ⟨?_, ?_, ?_, ?_⟩
  · exact (dedupAux_pairwise _ [] _).sublist hsub2
  · have hs : ((results.map boostResult).mergeSort descLe).Pairwise
        (fun a b => descLe a b = true) :=
      List.sorted_mergeSort descLe_trans descLe_total _
    have hs2 : ((results.map boostResult).mergeSort descLe).Pairwise
        (fun a b => scoreOf b ≤ scoreOf a) :=
      hs.imp (fun hab => by simpa [descLe] using hab)
    exact (hs2.sublist hsub1).sublist hsub2
  · intro y hy
    have hy2 : y ∈ removeDuplicates ((results.map boostResult).mergeSort descLe) :=
      hsub2.subset hy
    exact dedupAux_find _ [] _ y (by simp) hy2
  · exact List.length_take_le _ _

/-- C2 witness: the ranking and deduplication property at a concrete result
list (two results whose URLs normalize identically) and budget 1. -/
theorem c2_witness :
    0 < 1
    ∧ ((prioritizeAndDeduplicate
        [{ title := "A", url := "https://X.edu/", snippet := "s",
           relevanceScore := some 1 },
         { title := "B", url := "https://x.edu", snippet := "journal" }] 1).Pairwise
        (fun a b => normalizeUrl a.url ≠ normalizeUrl b.url)
      ∧ (prioritizeAndDeduplicate
        [{ title := "A", url := "https://X.edu/", snippet := "s",
           relevanceScore := some 1 },
         { title := "B", url := "https://x.edu", snippet := "journal" }] 1).Pairwise
        (fun a b => scoreOf b ≤ scoreOf a)
      ∧ (∀ y ∈ prioritizeAndDeduplicate
        [{ title := "A", url := "https://X.edu/", snippet := "s",
           relevanceScore := some 1 },
         { title := "B", url := "https://x.edu", snippet := "journal" }] 1,
          (([{ title := "A", url := "https://X.edu/", snippet := "s",
               relevanceScore := some 1 },
             { title := "B", url := "https://x.edu", snippet := "journal" }].map
               boostResult).mergeSort descLe).find?
            (fun z => normalizeUrl z.url == normalizeUrl y.url) = some y)
      ∧ (prioritizeAndDeduplicate
        [{ title := "A", url := "https://X.edu/", snippet := "s",
           relevanceScore := some 1 },
         { title := "B", url := "https://x.edu", snippet := "journal" }] 1).length ≤ 1) :=
  ⟨by decide,
   c2_prioritize_and_deduplicate
     [{ title := "A", url := "https://X.edu/", snippet := "s",
        relevanceScore := some 1 },
      { title := "B", url := "https://x.edu", snippet := "journal" }] 1
     (by decide)⟩

/-! ## Content extractor (`ContentExtractionService.extractContent`,
`ContentExtractionService.extractMultiple`) -/

/-- Embedding of the metadata record of `ExtractedContent`. -/
structure ContentMetadata where
  author : Option String := none
  publishDate : Option String := none
  wordCount : Nat
deriving DecidableEq

/-- Embedding of the `ExtractedContent` record from `types/index.ts`. -/
structure ExtractedContent where
  url : String
  title : String
  content : String
  metadata : ContentMetadata
deriving DecidableEq

/-- Embedding of `ContentExtractionService.extractContent`
(contentExtractionService lines 16-58): the retried fetch plus the cheerio
parse are the oracle `fetchParse`; a failure is converted into a
zero-word-count placeholder result instead of a thrown error. -/
def extractContentModel (fetchParse : String → Except String ExtractedContent)
    (url : String) : ToolResult ExtractedContent :=
  match fetchParse url with
  | Except.ok e => { success := true, data := some e }
  | Except.error msg =>
      { success := false, error := some msg,
        data := some { url := url, title := url, content := "",
                       metadata := { wordCount := 0 } } }

/-- The batching loop `for (let i = 0; i < urls.length; i += maxConcurrent)`,
fuelled so that the definition is structural; fuel `l.length` suffices
whenever `0 < n` (with `n = 0` the JS loop never terminates). -/
def chunksGo {α : Type} : Nat → Nat → List α → List (List α)
  | 0, _, _ => []
  | _ + 1, _, [] => []
  | fuel + 1, n, l => l.take n :: chunksGo fuel n (l.drop n)

/-- The batches processed by `extractMultiple`. -/
def chunks {α : Type} (n : Nat) (l : List α) : List (List α) :=
  chunksGo l.length n l

/-- One batch of `extractMultiple` (lines 69-79): extract every URL, keep
the successful results, then apply the minimum content threshold
`c.content.length > 100`. -/
def extractBatch (fetchParse : String → Except String ExtractedContent)
    (batch : List String) : List ExtractedContent :=
  ((batch.map (extractContentModel fetchParse)).filterMap
      (fun r => if r.success then r.data else none)).filter
    (fun c => 100 < c.content.length)

/-- Embedding of `ContentExtractionService.extractMultiple` (lines 63-84):
sequential batches, each batch appended to the accumulated results. -/
def extractMultiple (fetchParse : String → Except String ExtractedContent)
    (urls : List String) (maxConcurrent : Nat) : List ExtractedContent :=
  (chunks maxConcurrent urls).foldl
    (fun acc batch => acc ++ extractBatch fetchParse batch) []

/-- What one URL contributes to the output of `extractMultiple`. -/
def keepOf (fetchParse : String → Except String ExtractedContent)
    (u : String) : Option ExtractedContent :=
  match fetchParse u with
  | Except.ok e => if 100 < e.content.length then some e else none
  | Except.error _ => none

theorem extractBatch_eq (fetchParse : String → Except String ExtractedContent)
    (batch : List String) :
    extractBatch fetchParse batch = batch.filterMap (keepOf fetchParse) := by
  induction batch with
  | nil => rfl
  | cons u t ih =>
      simp only [extractBatch, List.map_cons, List.filterMap_cons,
        List.filterMap_map, Function.comp] at ih ⊢
      cases hfp : fetchParse u with
      | ok e =>
          simp only [extractContentModel, hfp, keepOf]
          by_cases hlen : 100 < e.content.length
          · simp [hlen, List.filter_cons, ih]
          · simp [hlen, List.filter_cons, ih]
      | error msg =>
          simp only [extractContentModel, hfp, keepOf]
          simpa using ih

theorem extractMultiple_fold_acc
    (fetchParse : String → Except String ExtractedContent)
    (cs : List (List String)) (acc : List ExtractedContent) :
    cs.foldl (fun acc batch => acc ++ extractBatch fetchParse batch) acc
      = acc ++ cs.foldl (fun acc batch => acc ++ extractBatch fetchParse batch) [] := by
  induction cs generalizing acc with
  | nil => simp
  | cons b t ih =>
      simp only [List.foldl_cons]
      rw [ih (acc ++ extractBatch fetchParse b), ih ([] ++ extractBatch fetchParse b)]
      simp [List.append_assoc]

theorem foldl_append_eq {α : Type} (cs : List (List α)) (acc : List α) :
    cs.foldl (fun a b => a ++ b) acc = acc ++ cs.foldl (fun a b => a ++ b) [] := by
  induction cs generalizing acc with
  | nil => simp
  | cons b t ih =>
      simp only [List.foldl_cons]
      rw [ih (acc ++ b), ih ([] ++ b)]
      simp [List.append_assoc]

theorem chunksGo_characterization {α : Type} (n : Nat) (hn : 0 < n) :
    ∀ (fuel : Nat) (l : List α), l.length ≤ fuel →
      (chunksGo fuel n l).foldl (fun acc b => acc ++ b) [] = l := by
  intro fuel
  induction fuel with
  | zero =>
      intro l hl
      have : l = [] := List.eq_nil_of_length_eq_zero (Nat.le_zero.mp hl)
      subst this
      rfl
  | succ f ih =>
      intro l hl
      cases l with
      | nil => rfl
      | cons x xs =>
          simp only [chunksGo, List.foldl_cons]
          have hdrop : ((x :: xs).drop n).length ≤ f := by
            simp only [List.length_drop, List.length_cons]
            simp only [List.length_cons] at hl
            omega
          rw [foldl_append_eq, List.nil_append, ih _ hdrop]
          exact List.take_append_drop n (x :: xs)


theorem extractMultiple_eq (fetchParse : String → Except String ExtractedContent)
    (urls : List String) (n : Nat) (hn : 0 < n) :
    extractMultiple fetchParse urls n = urls.filterMap (keepOf fetchParse) := by
  have hjoin : ∀ cs : List (List String),
      cs.foldl (fun acc batch => acc ++ extractBatch fetchParse batch) []
        = (cs.foldl (fun a b => a ++ b) []).filterMap (keepOf fetchParse) := by
    intro cs
    induction cs with
    | nil => rfl
    | cons b t ih =>
        simp only [List.foldl_cons]
        rw [extractMultiple_fold_acc, foldl_append_eq, List.nil_append, List.nil_append,
          List.filterMap_append, ih, extractBatch_eq]
  unfold extractMultiple
  rw [hjoin, chunks, chunksGo_characterization n hn urls.length urls (Nat.le_refl _)]

/-- Is the fetch of this URL failing (rejected, timed out, unreachable). -/
def unreachable (fetchParse : String → Except String ExtractedContent)
    (u : String) : Bool :=
  match fetchParse u with
  | Except.error _ => true
  | Except.ok _ => false

/-- Does this URL fetch succeed but fall below the minimum content
threshold of `extractMultiple` (`content.length > 100` required to keep). -/
def shortContent (fetchParse : String → Except String ExtractedContent)
    (u : String) : Bool :=
  match fetchParse u with
  | Except.ok e => decide (e.content.length ≤ 100)
  | Except.error _ => false

theorem filterMap_keepOf_length (fetchParse : String → Except String ExtractedContent)
    (urls : List String) :
    (urls.filterMap (keepOf fetchParse)).length
      + urls.countP (unreachable fetchParse)
      + urls.countP (shortContent fetchParse) = urls.length := by
  induction urls with
  | nil => rfl
  | cons u t ih =>
      simp only [List.filterMap_cons, List.countP_cons, List.length_cons]
      cases hfp : fetchParse u with
      | ok e =>
          by_cases hlen : 100 < e.content.length
          · simp only [keepOf, hfp, if_pos hlen, unreachable, shortContent,
              List.length_cons]
            have h1 : (decide (e.content.length ≤ 100)) = false := by
              simp
              omega
            simp [h1]
            omega
          · simp only [keepOf, hfp, if_neg hlen, unreachable, shortContent]
            have h1 : (decide (e.content.length ≤ 100)) = true := by
              simp
              omega
            simp [h1]
            omega
      | error msg =>
          simp only [keepOf, hfp, unreachable, shortContent]
          simp
          omega

/-- Test oracle: every fetch succeeds but yields content of only four
characters, below the 100-character threshold. -/
def shortOracle : String → Except String ExtractedContent :=
  fun u =>
    Except.ok { url := u, title := "T", content := "tiny",
                metadata := { wordCount := 1 } }

/-- C4 counterexample: a single reachable URL whose extracted content is
below the 100-character threshold: no URL is unreachable (K = 0) yet the
batch extraction returns zero items, refuting the claimed lower bound
N - K = 1. -/
theorem c4_counterexample :
    (shortOracle "https://a.example").isOk = true
    ∧ extractMultiple shortOracle ["https://a.example"] 10 = [] := by
  constructor
  · rfl
  · rfl

/-- C4 (amended): a failed fetch yields a zero-word-count placeholder result
instead of a thrown error, and the batch extraction over N URLs returns
exactly N minus the number of unreachable URLs minus the number of reachable
URLs whose extracted content is at most 100 characters long (so at least
N - K only when every reachable URL clears the content threshold). -/
theorem c4_extraction_soft_fail
    (fetchParse : String → Except String ExtractedContent)
    (urls : List String) (n : Nat) (hn : 0 < n) :
    (∀ url msg, fetchParse url = Except.error msg →
      extractContentModel fetchParse url =
        { success := false, error := some msg,
          data := some { url := url, title := url, content := "",
                         metadata := { wordCount := 0 } } })
    ∧ (extractMultiple fetchParse urls n).length
        + urls.countP (unreachable fetchParse)
        + urls.countP (shortContent fetchParse) = urls.length := by
  constructor
  · intro url msg hmsg
    simp [extractContentModel, hmsg]
  · rw [extractMultiple_eq fetchParse urls n hn]
    exact filterMap_keepOf_length fetchParse urls

/-- Test oracle: one specific URL is unreachable, every other fetch succeeds
with content of 120 characters. -/
def mixedOracle : String → Except String ExtractedContent :=
  fun u =>
    if u = "https://bad.example" then Except.error "timeout of 8000ms exceeded"
    else
      Except.ok { url := u, title := "T", content := ⟨List.replicate 120 'x'⟩,
                  metadata := { wordCount := 1 } }

/-- C4 witness: the amended extraction property at a concrete oracle with
one unreachable and one well-filled URL. -/
theorem c4_witness :
    0 < 10
    ∧ ((∀ url msg, mixedOracle url = Except.error msg →
        extractContentModel mixedOracle url =
          { success := false, error := some msg,
            data := some { url := url, title := url, content := "",
                           metadata := { wordCount := 0 } } })
      ∧ (extractMultiple mixedOracle
          ["https://good.example", "https://bad.example"] 10).length
          + ["https://good.example", "https://bad.example"].countP
              (unreachable mixedOracle)
          + ["https://good.example", "https://bad.example"].countP
              (shortContent mixedOracle)
          = (["https://good.example", "https://bad.example"] : List String).length) :=
  ⟨by decide,
   c4_extraction_soft_fail mixedOracle
     ["https://good.example", "https://bad.example"] 10 (by decide)⟩

/-- C9: batch extraction is a per-URL filter: for every positive concurrency
window it returns exactly the kept extraction of each URL in input order
(hence an order-preserving subsequence of the input URL order, independent
of the batching window), and when the oracle reports each content under its
own URL the extracted URLs form a sublist of the input URLs. -/
theorem c9_extraction_order
    (fetchParse : String → Except String ExtractedContent)
    (urls : List String) (n m : Nat) (hn : 0 < n) (hm : 0 < m)
    (hurl : ∀ u e, fetchParse u = Except.ok e → e.url = u) :
    extractMultiple fetchParse urls n = urls.filterMap (keepOf fetchParse)
    ∧ extractMultiple fetchParse urls n = extractMultiple fetchParse urls m
    ∧ (extractMultiple fetchParse urls n).map (fun e => e.url) <+ urls := by
  refine ⟨extractMultiple_eq fetchParse urls n hn, ?_, ?_⟩
  · rw [extractMultiple_eq fetchParse urls n hn, extractMultiple_eq fetchParse urls m hm]
  · rw [extractMultiple_eq fetchParse urls n hn]
    induction urls with
    | nil => simp
    | cons u t ih =>
        simp only [List.filterMap_cons]
        cases hfp : fetchParse u with
        | ok e =>
            simp only [keepOf, hfp]
            by_cases hlen : 100 < e.content.length
            · rw [if_pos hlen]
              simp only [List.map_cons]
              rw [hurl u e hfp]
              exact ih.cons₂ u
            · rw [if_neg hlen]
              exact ih.cons u
        | error msg =>
            simp only [keepOf, hfp]
            exact ih.cons u

/-- C9 witness: the order property at the concrete mixed oracle. -/
theorem c9_witness :
    0 < 10 ∧ 0 < 3
    ∧ (extractMultiple mixedOracle
        ["https://good.example", "https://bad.example"] 10
        = ["https://good.example", "https://bad.example"].filterMap (keepOf mixedOracle)
      ∧ extractMultiple mixedOracle
          ["https://good.example", "https://bad.example"] 10
        = extractMultiple mixedOracle
            ["https://good.example", "https://bad.example"] 3
      ∧ (extractMultiple mixedOracle
          ["https://good.example", "https://bad.example"] 10).map (fun e => e.url)
        <+ ["https://good.example", "https://bad.example"]) :=
  ⟨by decide, by decide,
   c9_extraction_order mixedOracle
     ["https://good.example", "https://bad.example"] 10 3 (by decide) (by decide)
     (by
       intro u e he
       by_cases hu : u = "https://bad.example"
       · simp [mixedOracle, hu] at he
       · simp only [mixedOracle, if_neg hu] at he
         cases he
         rfl)⟩

/-! ## Citations (`AutoResearchAgent.extractCitations`, the citation list in
`generateReport`, and the back-reference resolution in
`ReportGenerationService.renderSection`) -/

/-- `parseInt` on a non-empty digit string. -/
def natOfDigits (ds : List Char) : Nat :=
  ds.foldl (fun a c => a * 10 + (c.toNat - 48)) 0

/-- The global regex scan for bracketed numeric markers
(agent line 577, regex `[(\d+)]` over the text): left to right,
non-overlapping; fuelled so the definition is structural (the text length
always suffices). -/
def citMarkersGo : Nat → List Char → List Nat
  | 0, _ => []
  | _ + 1, [] => []
  | fuel + 1, c :: rest =>
      if c = '[' then
        let ds := rest.takeWhile Char.isDigit
        let after := rest.drop ds.length
        if ds ≠ [] ∧ after.head? = some ']' then
          natOfDigits ds :: citMarkersGo fuel (after.drop 1)
        else citMarkersGo fuel rest
      else citMarkersGo fuel rest

/-- Embedding of `AutoResearchAgent.extractCitations` (lines 576-584):
every marker value n becomes the string `cit-n`. -/
def extractCitations (text : String) : List String :=
  (citMarkersGo text.data.length text.data).map (fun k => "cit-" ++ decStr k)

/-- Embedding of the `Citation` record from `types/index.ts`. -/
structure Citation where
  id : String
  title : String
  url : String
  author : Option String := none
  publishDate : Option String := none
  accessDate : String
deriving DecidableEq

/-- Embedding of the citation derivation in `generateReport` (agent lines
310-317) and `generateFallbackReport` (lines 449-456): one citation per
extracted content, id `cit-(index+1)`, access date from `formatDate()`. -/
def mkCitations (accessDate : String) (contents : List ExtractedContent) :
    List Citation :=
  contents.enum.map (fun p =>
    { id := "cit-" ++ decStr (p.1 + 1), title := p.2.title, url := p.2.url,
      author := p.2.metadata.author, publishDate := p.2.metadata.publishDate,
      accessDate := accessDate })

/-- Embedding of the back-reference resolution in `renderSection`
(reportGenerationService lines 291-294): the 1-based index of the citation
with the given id, or the literal question mark when the id is absent
(`findIndex` returned -1). -/
def citNum (citations : List Citation) (citId : String) : String :=
  match citations.findIdx? (fun c => c.id == citId) with
  | some i => decStr (i + 1)
  | none => "?"

theorem mkCitations_length (accessDate : String) (contents : List ExtractedContent) :
    (mkCitations accessDate contents).length = contents.length := by
  simp [mkCitations]

/-- C5: every bracketed marker value n scanned from a section text with
1 ≤ n ≤ number of citations is mapped by `extractCitations` to the string
`cit-n`, which is exactly the id of the (n-1)-th derived citation; and a
section citation id that matches no citation in the report's list is
rendered as the literal question mark, with no failure path. -/
theorem c5_citation_round_trip (text : String) (accessDate : String)
    (contents : List ExtractedContent) (n : Nat)
    (hmem : n ∈ citMarkersGo text.data.length text.data)
    (h1 : 1 ≤ n) (h2 : n ≤ contents.length)
    (citations : List Citation) (cid : String)
    (horphan : ∀ c ∈ citations, c.id ≠ cid) :
    ("cit-" ++ decStr n) ∈ extractCitations text
    ∧ ((mkCitations accessDate contents).get
        ⟨n - 1, by rw [mkCitations_length]; omega⟩).id = "cit-" ++ decStr n
    ∧ citNum citations cid = "?" := by
  refine ⟨?_, ?_, ?_⟩
  · exact List.mem_map_of_mem _ hmem
  · simp only [mkCitations, List.get_eq_getElem, List.getElem_map, List.getElem_enum]
    have hsub : n - 1 + 1 = n := by omega
    rw [hsub]
  · unfold citNum
    rw [List.findIdx?_eq_none_iff.mpr]
    intro c hc
    simpa using horphan c hc

/-- Two sample extracted contents used to instantiate the citation claims. -/
def sampleContents : List ExtractedContent :=
  [{ url := "https://a.example", title := "A", content := "alpha",
     metadata := { wordCount := 1 } },
   { url := "https://b.example", title := "B", content := "beta",
     metadata := { wordCount := 1 } }]

/-- C5 witness: the round-trip property at the concrete text
"Key results [2] and [12] matter." with two citations, and an orphan id
against an empty citation list. -/
theorem c5_witness :
    2 ∈ citMarkersGo ("Key results [2] and [12] matter." : String).data.length
        ("Key results [2] and [12] matter." : String).data
    ∧ 1 ≤ 2 ∧ 2 ≤ sampleContents.length
    ∧ (∀ c ∈ ([] : List Citation), c.id ≠ "cit-9")
    ∧ (("cit-" ++ decStr 2) ∈ extractCitations "Key results [2] and [12] matter."
      ∧ ((mkCitations "2024-01-01" sampleContents).get
          ⟨2 - 1, by rw [mkCitations_length]; decide⟩).id = "cit-" ++ decStr 2
      ∧ citNum [] "cit-9" = "?") :=
  ⟨by decide, by decide, by decide, by simp,
   c5_citation_round_trip "Key results [2] and [12] matter." "2024-01-01"
     sampleContents 2 (by decide) (by decide) (by decide) [] "cit-9" (by simp)⟩

/-! ## Report assembly (`AutoResearchAgent.generateReport`,
`buildReportFromStructure`, `parseReportResponse`) -/

/-- A nested subsection of a report section. -/
structure SubSection where
  title : String
  content : String
  citations : List String
deriving DecidableEq

/-- Embedding of `ResearchSection` (one level of subsections, which is all
the renderer ever visits). -/
structure ResearchSection where
  title : String
  content : String
  citations : List String
  subsections : List SubSection := []
deriving DecidableEq

/-- Embedding of a `Visualization` record: the table data is a list of rows,
each row an association list of column name to cell text. -/
structure Visualization where
  title : String
  description : String
  vtype : String
  data : List (List (String × String))
deriving DecidableEq

/-- Embedding of `ResearchReport`. -/
structure ResearchReport where
  topic : String
  generatedAt : String
  summary : String
  sections : List ResearchSection
  citations : List Citation
  visualizations : List Visualization := []
deriving DecidableEq

/-- The nine string fields requested from the structured completion
(agent lines 335-346); absent JSON fields are `none`
(`reportData.field || ''`). -/
structure ReportData where
  title : Option String := none
  abstract : Option String := none
  introduction : Option String := none
  literature_review : Option String := none
  methodology : Option String := none
  findings : Option String := none
  discussion : Option String := none
  conclusion : Option String := none
  recommendations : Option String := none
deriving DecidableEq

/-- Embedding of `buildReportFromStructure` (agent lines 388-439): the
eight canonical sections, each harvesting its own citation markers; the
summary falls back from the abstract to the first 500 characters of the
first non-empty section. -/
def buildReportFromStructure (now : String) (rd : ReportData) (topic : String)
    (citations : List Citation) : ResearchReport :=
  let sections : List ResearchSection :=
    [{ title := "Abstract", content := rd.abstract.getD "", citations := [] },
     { title := "Introduction", content := rd.introduction.getD "",
       citations := extractCitations (rd.introduction.getD "") },
     { title := "Literature Review", content := rd.literature_review.getD "",
       citations := extractCitations (rd.literature_review.getD "") },
     { title := "Methodology", content := rd.methodology.getD "",
       citations := extractCitations (rd.methodology.getD "") },
     { title := "Findings and Results", content := rd.findings.getD "",
       citations := extractCitations (rd.findings.getD "") },
     { title := "Discussion and Analysis", content := rd.discussion.getD "",
       citations := extractCitations (rd.discussion.getD "") },
     { title := "Conclusion", content := rd.conclusion.getD "",
       citations := extractCitations (rd.conclusion.getD "") },
     { title := "Recommendations", content := rd.recommendations.getD "",
       citations := extractCitations (rd.recommendations.getD "") }]
  { topic := topic, generatedAt := now,
    summary :=
      if rd.abstract.getD "" ≠ "" then rd.abstract.getD ""
      else
        match sections.find? (fun s => s.content ≠ "") with
        | some s => jsSubstring s.content 500
        | none => "",
    sections := sections, citations := citations }

/-- Does a trimmed line switch the parser into abstract mode
(agent lines 518-522): it contains the word abstract or the phrase
executive summary, case-insensitively. -/
def isAbstractMarker (trimmed : String) : Bool :=
  containsSub (jsToLower trimmed) "abstract"
    || containsSub (jsToLower trimmed) "executive summary"

/-- The capture group of the first heading regex
(two hash signs, then optional whitespace, digits, a dot and whitespace,
then the rest of the line) applied to the text after the two hash signs.
When the greedy prefix consumes the whole remainder the regex engine
backtracks; for a trimmed input (no trailing whitespace) the backtracking
always ends with the final character alone in the capture group. -/
def regex1Group (rest : List Char) : List Char :=
  let r1 := rest.dropWhile jsWs
  let r2 := r1.dropWhile Char.isDigit
  let r3 := if r2.head? = some '.' then r2.drop 1 else r2
  let r4 := r3.dropWhile jsWs
  if r4 ≠ [] then r4
  else
    match rest.getLast? with
    | some c => [c]
    | none => []

/-- The second heading regex (digits, a dot, whitespace, then a capital-or-
whitespace run to the end of the line). -/
def headerMatch2 (s : String) : Option String :=
  let ds := s.data.takeWhile Char.isDigit
  if ds = [] then none
  else
    match s.data.drop ds.length with
    | '.' :: r2 =>
        let ws := r2.takeWhile jsWs
        let r3 := r2.drop ws.length
        if ws ≠ [] ∧ r3 ≠ []
            ∧ r3.all (fun c => ('A' ≤ c && c ≤ 'Z') || jsWs c) then
          some ⟨r3⟩
        else none
    | _ => none

/-- Embedding of the main-header match of `parseReportResponse`
(agent lines 524-525) on an already-trimmed line: the double-hash regex,
else the numbered-capitals regex. -/
def headerMatch (s : String) : Option String :=
  match s.data with
  | '#' :: '#' :: rest =>
      if rest = [] then none else some ⟨regex1Group rest⟩
  | _ => headerMatch2 s

/-- The loop state of `parseReportResponse`. -/
structure ParseState where
  sections : List ResearchSection
  current : Option ResearchSection
  abstract : String
  inAbstract : Bool
deriving DecidableEq

/-- Embedding of one iteration of the line loop of `parseReportResponse`
(agent lines 515-550). -/
def parseLine (st : ParseState) (line : String) : ParseState :=
  let trimmed := jsTrim line
  if isAbstractMarker trimmed then
    { st with inAbstract := true }
  else
    match headerMatch trimmed with
    | some title =>
        { sections := st.sections
            ++ (match st.current with | some cs => [cs] | none => []),
          current := some { title := jsTrim title, content := "", citations := [] },
          abstract := st.abstract,
          inAbstract := false }
    | none =>
        if trimmed ≠ "" then
          if st.inAbstract ∧ st.sections = [] then
            { st with abstract := st.abstract ++ line ++ "\n" }
          else
            match st.current with
            | some cs =>
                { st with current := some { cs with
                    content := cs.content ++ line ++ "\n",
                    citations := dedupStr (cs.citations ++ extractCitations line) } }
            | none => st
        else st

/-- Embedding of `parseReportResponse` (agent lines 508-571). -/
def parseReportResponse (now topic : String) (citations : List Citation)
    (response : String) : ResearchReport :=
  let st := (splitNl response).foldl parseLine
    { sections := [], current := none, abstract := "", inAbstract := false }
  let sections := st.sections
    ++ (match st.current with | some cs => [cs] | none => [])
  let sections :=
    if sections = [] then
      [{ title := "Overview", content := response,
         citations := extractCitations response }]
    else sections
  { topic := topic, generatedAt := now,
    summary :=
      if jsTrim st.abstract ≠ "" then jsTrim st.abstract
      else jsSubstring response 500,
    sections := sections, citations := citations }

/-- Embedding of `generateReport` (agent lines 300-383) at the level of the
two completion calls: `primary` is the structured completion after JSON
parsing (`none` on invalid JSON, timeout or provider error), and
`fallbackResponse` is the free-text completion used by
`generateFallbackReport` in that case. -/
def generateReportModel (now accessDate topic : String)
    (contents : List ExtractedContent) (primary : Option ReportData)
    (fallbackResponse : String) : ResearchReport :=
  let citations := mkCitations accessDate contents
  match primary with
  | some rd => buildReportFromStructure now rd topic citations
  | none => parseReportResponse now topic citations fallbackResponse

theorem string_data_ne_nil {s : String} (h : s ≠ "") : s.data ≠ [] := by
  intro hd
  exact h (String.ext (by simpa using hd))

theorem jsSubstring_ne_empty {s : String} (n : Nat) (hs : s ≠ "") (hn : 0 < n) :
    jsSubstring s n ≠ "" := by
  intro he
  have hd : (jsSubstring s n).data = ("" : String).data := by rw [he]
  simp only [jsSubstring] at hd
  rcases List.take_eq_nil_iff.mp (by simpa using hd) with h0 | h0
  · omega
  · exact string_data_ne_nil hs h0

/-- C6 counterexample: with the primary structured path failing and the
fallback free-text completion empty, the assembled report's summary is the
empty string, refuting the unconditional non-empty-summary claim. -/
theorem c6_counterexample :
    (generateReportModel "2024-01-01T00:00:00Z" "2024-01-01" "Topic" []
      none "").summary = ""
    ∧ 1 ≤ (generateReportModel "2024-01-01T00:00:00Z" "2024-01-01" "Topic" []
      none "").sections.length := by
  constructor
  · rfl
  · decide

/-- C6 (amended): when the primary structured completion yields invalid
JSON (or times out or errors), report assembly still returns a report with
at least one section, and its summary is non-empty whenever the fallback
free-text completion is a non-empty string. -/
theorem c6_report_fallback (now accessDate topic : String)
    (contents : List ExtractedContent) (fallbackResponse : String)
    (h : fallbackResponse ≠ "") :
    1 ≤ (generateReportModel now accessDate topic contents none
      fallbackResponse).sections.length
    ∧ (generateReportModel now accessDate topic contents none
      fallbackResponse).summary ≠ "" := by
  constructor
  · simp only [generateReportModel, parseReportResponse]
    split
    · simp
    · rename_i hne
      have := List.length_pos.mpr hne
      omega
  · simp only [generateReportModel, parseReportResponse]
    split
    · assumption
    · exact jsSubstring_ne_empty 500 h (by omega)

/-- C6 witness: the fallback assembly property at a concrete one-line
fallback completion. -/
theorem c6_witness :
    ("Overview text." : String) ≠ ""
    ∧ (1 ≤ (generateReportModel "2024-01-01T00:00:00Z" "2024-01-01" "Topic" []
        none "Overview text.").sections.length
      ∧ (generateReportModel "2024-01-01T00:00:00Z" "2024-01-01" "Topic" []
        none "Overview text.").summary ≠ "") :=
  ⟨by decide,
   c6_report_fallback "2024-01-01T00:00:00Z" "2024-01-01" "Topic" []
     "Overview text." (by decide)⟩

/-- No step of the line parser ever creates a subsection. -/
theorem parseLine_no_subsections (st : ParseState) (line : String)
    (h1 : ∀ s ∈ st.sections, s.subsections = [])
    (h2 : ∀ cs, st.current = some cs → cs.subsections = []) :
    (∀ s ∈ (parseLine st line).sections, s.subsections = [])
    ∧ (∀ cs, (parseLine st line).current = some cs → cs.subsections = []) := by
  unfold parseLine
  by_cases hm : isAbstractMarker (jsTrim line)
  · simp only [if_pos hm]
    exact ⟨h1, h2⟩
  · rw [if_neg hm]
    cases hh : headerMatch (jsTrim line) with
    | some title =>
        simp only
        constructor
        · intro s hs
          rcases List.mem_append.mp hs with hs | hs
          · exact h1 s hs
          · cases hcur : st.current with
            | none => rw [hcur] at hs; simp at hs
            | some cs =>
                rw [hcur] at hs
                simp only [List.mem_singleton] at hs
                subst hs
                exact h2 s hcur
        · intro cs hcs
          cases hcs
          rfl
    | none =>
        by_cases ht : jsTrim line ≠ ""
        · rw [if_pos ht]
          by_cases hab : st.inAbstract ∧ st.sections = []
          · rw [if_pos hab]
            exact ⟨h1, h2⟩
          · rw [if_neg hab]
            cases hcur : st.current with
            | none => exact ⟨h1, h2⟩
            | some cs =>
                simp only
                refine ⟨h1, ?_⟩
                intro cs2 hcs2
                cases hcs2
                exact h2 cs hcur
        · rw [if_neg ht]
          exact ⟨h1, h2⟩

/-- The whole parse never creates a subsection. -/
theorem parseReportResponse_no_subsections (now topic : String)
    (citations : List Citation) (response : String) :
    ∀ s ∈ (parseReportResponse now topic citations response).sections,
      s.subsections = [] := by
  have hfold : ∀ (lines : List String) (st : ParseState),
      (∀ s ∈ st.sections, s.subsections = []) →
      (∀ cs, st.current = some cs → cs.subsections = []) →
      (∀ s ∈ (lines.foldl parseLine st).sections, s.subsections = [])
      ∧ (∀ cs, (lines.foldl parseLine st).current = some cs →
          cs.subsections = []) := by
    intro lines
    induction lines with
    | nil => intro st h1 h2; exact ⟨h1, h2⟩
    | cons l t ih =>
        intro st h1 h2
        have := parseLine_no_subsections st l h1 h2
        exact ih (parseLine st l) this.1 this.2
  simp only [parseReportResponse]
  split
  · intro s hs
    simp only [List.mem_singleton] at hs
    subst hs
    rfl
  · intro s hs
    have hst := hfold (splitNl response)
      { sections := [], current := none, abstract := "", inAbstract := false }
      (by simp) (by simp)
    rcases List.mem_append.mp hs with hs | hs
    · exact hst.1 s hs
    · cases hcur : ((splitNl response).foldl parseLine
        { sections := [], current := none, abstract := "", inAbstract := false }).current with
      | none => rw [hcur] at hs; simp at hs
      | some cs =>
          rw [hcur] at hs
          simp only [List.mem_singleton] at hs
          subst hs
          exact hst.2 s hcur

/-- C7 counterexample: in
"Intro line\n## 1. OVERVIEW\nBody [1]\n### a. Fine\nSub body" the finer
heading produces a second top-level section titled "# a. Fine" (no
subsection is nested under OVERVIEW), and the pre-heading line "Intro line"
is discarded rather than becoming the abstract (the summary falls back to
the whole response). -/
theorem c7_counterexample :
    (parseReportResponse "g" "t" []
      "Intro line\n## 1. OVERVIEW\nBody [1]\n### a. Fine\nSub body").sections.map
        (fun s => s.title) = ["OVERVIEW", "# a. Fine"]
    ∧ (parseReportResponse "g" "t" []
      "Intro line\n## 1. OVERVIEW\nBody [1]\n### a. Fine\nSub body").sections.map
        (fun s => s.subsections) = [[], []]
    ∧ (parseReportResponse "g" "t" []
      "Intro line\n## 1. OVERVIEW\nBody [1]\n### a. Fine\nSub body").summary
        ≠ "Intro line" := by
  refine ⟨by decide, by decide, by decide⟩

/-- C7 (amended): the fallback parser processes the completion line by
line; a line containing "abstract" or "executive summary"
(case-insensitively) only switches to abstract mode and is itself dropped;
a line whose trim matches a heading pattern (which also matches finer
"###" headings, the extra hash staying in the title) closes the current
section and starts a new top-level one; a non-blank non-heading line is
collected into the abstract only in abstract mode before any section has
been closed, is appended to the current section's content with its citation
markers harvested when a section is open, and is discarded otherwise; blank
lines are skipped; and no subsection is ever produced. -/
theorem c7_fallback_line_rules (response now topic : String)
    (citations : List Citation) (st : ParseState) (line hdr : String) :
    (isAbstractMarker (jsTrim line) = true →
      parseLine st line = { st with inAbstract := true })
    ∧ (isAbstractMarker (jsTrim line) = false →
        headerMatch (jsTrim line) = some hdr →
        parseLine st line =
          { sections := st.sections
              ++ (match st.current with | some cs => [cs] | none => []),
            current := some { title := jsTrim hdr, content := "", citations := [] },
            abstract := st.abstract, inAbstract := false })
    ∧ (isAbstractMarker (jsTrim line) = false →
        headerMatch (jsTrim line) = none → jsTrim line ≠ "" →
        st.inAbstract = true → st.sections = [] →
        parseLine st line = { st with abstract := st.abstract ++ line ++ "\n" })
    ∧ (∀ cs, isAbstractMarker (jsTrim line) = false →
        headerMatch (jsTrim line) = none → jsTrim line ≠ "" →
        ¬(st.inAbstract = true ∧ st.sections = []) → st.current = some cs →
        parseLine st line = { st with current := some { cs with
          content := cs.content ++ line ++ "\n",
          citations := dedupStr (cs.citations ++ extractCitations line) } })
    ∧ (isAbstractMarker (jsTrim line) = false →
        headerMatch (jsTrim line) = none → jsTrim line ≠ "" →
        ¬(st.inAbstract = true ∧ st.sections = []) → st.current = none →
        parseLine st line = st)
    ∧ (isAbstractMarker (jsTrim line) = false →
        headerMatch (jsTrim line) = none → jsTrim line = "" →
        parseLine st line = st)
    ∧ (∀ s ∈ (parseReportResponse now topic citations response).sections,
        s.subsections = [])
    ∧ headerMatch "### Details" = some "# Details" := by
  refine ⟨?_, ?_, ?_, ?_, ?_, ?_,
    parseReportResponse_no_subsections now topic citations response, by decide⟩
  · intro hm
    simp [parseLine, hm]
  · intro hm hh
    simp [parseLine, hm, hh]
  · intro hm hh ht hab hsec
    simp only [parseLine, hm, Bool.false_eq_true, if_false, hh, if_pos ht]
    rw [if_pos ⟨by simp [hab], hsec⟩]
  · intro cs hm hh ht hab hcur
    simp only [parseLine, hm, Bool.false_eq_true, if_false, hh, if_pos ht]
    rw [if_neg (by simpa using hab), hcur]
  · intro hm hh ht hab hcur
    simp only [parseLine, hm, Bool.false_eq_true, if_false, hh, if_pos ht]
    rw [if_neg (by simpa using hab), hcur]
  · intro hm hh ht
    rw [ht] at hm hh
    simp [parseLine, ht, hm, hh]

/-- C7 witness: the heading step of the line parser at a concrete state and
line. -/
theorem c7_witness :
    parseLine { sections := [], current := none, abstract := "", inAbstract := false }
      "## 2. INTRODUCTION"
    = { sections := [],
        current := some { title := "INTRODUCTION", content := "", citations := [] },
        abstract := "", inAbstract := false } :=
  (c7_fallback_line_rules "x" "g" "t" []
    { sections := [], current := none, abstract := "", inAbstract := false }
    "## 2. INTRODUCTION" "INTRODUCTION").2.1 (by decide) (by decide)

/-! ## Markdown renderer (`ReportGenerationService.generateMarkdown`,
`renderSection`, `formatCitationAPA`, `slugify`, `renderTable`)

The generated file is modelled at line granularity: every
`markdown += piece` of the source, where `piece` ends in a newline,
contributes `splitNl` of the piece without its final newline, and the file
closes with the final empty line produced by the trailing newline; splitting
a concatenation at an inserted newline splits exactly there, so this is the
line decomposition of the concatenated string. -/

/-- The ambient JS date formatting used by the renderer
(`new Date(x).toLocaleString()` and `getFullYear()` of a parsed date are
locale and clock dependent, outside the pure embedding). -/
structure RenderEnv where
  toLocaleString : String → String
  yearOf : String → String

/-- Embedding of `formatCitationAPA` (reportGenerationService lines 357-378). -/
def formatCitationAPA (env : RenderEnv) (c : Citation) : String :=
  (match c.author with
   | some a =>
       a ++ (match c.publishDate with
             | some d => " (" ++ env.yearOf d ++ ")"
             | none => "") ++ ". "
   | none =>
       match c.publishDate with
       | some d => "(" ++ env.yearOf d ++ "). "
       | none => "")
  ++ c.title ++ ". "
  ++ "Retrieved from " ++ c.url ++ ". "
  ++ "Accessed: " ++ c.accessDate ++ "."

/-- The word-character class of the slug regex. -/
def isWordChar (c : Char) : Bool :=
  ('a' ≤ c && c ≤ 'z') || ('A' ≤ c && c ≤ 'Z') || ('0' ≤ c && c ≤ '9') || c = '_'

/-- The class collapsed to a dash by the slug regex. -/
def isDashy (c : Char) : Bool :=
  jsWs c || c = '_' || c = '-'

/-- Collapse every run of whitespace, underscores and dashes into one dash. -/
def collapseDash : List Char → List Char
  | [] => []
  | c :: cs =>
      if isDashy c then
        match collapseDash cs with
        | '-' :: t => '-' :: t
        | t => '-' :: t
      else c :: collapseDash cs

/-- Embedding of `slugify` (lines 402-408). -/
def slugify (s : String) : String :=
  let kept := (jsToLower s).data.filter (fun c => isWordChar c || jsWs c || c = '-')
  let collapsed := collapseDash kept
  ⟨((collapsed.dropWhile (fun c => c = '-')).reverse.dropWhile
      (fun c => c = '-')).reverse⟩

/-- `String.fromCharCode(97 + idx)`: the subsection letter. -/
def subLetter (j : Nat) : String :=
  ⟨[Char.ofNat (97 + j)]⟩

/-- `array.join(sep)`. -/
def joinSep (sep : String) : List String → String
  | [] => ""
  | [x] => x
  | x :: y :: t => x ++ sep ++ joinSep sep (y :: t)

/-- The inline back-reference line of `renderSection`
(`*[References: i, j]*`). -/
def refMarkLine (cits : List Citation) (ids : List String) : String :=
  "*[References: " ++ joinComma (ids.map (citNum cits)) ++ "]*"

/-- The lines a subsection contributes inside `renderSection`
(lines 299-313, at level 2, so three hash signs). -/
def subSectionLines (cits : List Citation) (j : Nat) (sub : SubSection) :
    List String :=
  splitNl ("### " ++ subLetter j ++ ". " ++ sub.title) ++ [""]
  ++ splitNl sub.content ++ [""]
  ++ (if sub.citations.length > 0 then splitNl (refMarkLine cits sub.citations) ++ [""]
      else [])

/-- Embedding of `renderSection` (lines 284-316) as called by
`generateMarkdown`: level 2 and a 1-based section number. -/
def renderSectionLines (cits : List Citation) (num : Nat) (s : ResearchSection) :
    List String :=
  splitNl ("## " ++ decStr num ++ ". " ++ s.title) ++ [""]
  ++ splitNl s.content ++ [""]
  ++ (if s.citations.length > 0 then splitNl (refMarkLine cits s.citations) ++ [""]
      else [])
  ++ (s.subsections.enum.map (fun p => subSectionLines cits p.1 p.2)).flatten

/-- The table-of-contents lines of one section (lines 72-79). -/
def tocSectionLines (idx : Nat) (s : ResearchSection) : List String :=
  splitNl (decStr (idx + 1) ++ ". [" ++ s.title ++ "](#" ++ slugify s.title ++ ")")
  ++ (s.subsections.enum.map (fun p =>
      splitNl ("   " ++ subLetter p.1 ++ ". [" ++ p.2.title ++ "](#"
        ++ slugify p.2.title ++ ")"))).flatten

/-- All table-of-contents entries. -/
def tocLines (sections : List ResearchSection) : List String :=
  (sections.enum.map (fun p => tocSectionLines p.1 p.2)).flatten

/-- Embedding of `renderTable` (lines 383-397). -/
def renderTableLines (data : List (List (String × String))) : List String :=
  match data with
  | [] => ["*No data available*", ""]
  | row0 :: _ =>
      let headers := row0.map Prod.fst
      ("| " ++ joinSep " | " headers ++ " |")
        :: ("| " ++ joinSep " | " (headers.map (fun _ => "---")) ++ " |")
        :: (data.map (fun row =>
            "| " ++ joinSep " | "
              (headers.map (fun h2 => ((row.lookup h2).getD ""))) ++ " |"))
        ++ [""]

/-- The appendix lines (lines 90-101), empty when there is no visualization. -/
def vizLines (vizs : List Visualization) : List String :=
  if vizs.length > 0 then
    ["## Appendix: Data Visualizations", ""]
    ++ (vizs.map (fun v =>
        splitNl ("### " ++ v.title) ++ [""]
        ++ splitNl v.description ++ [""]
        ++ (if v.vtype = "table" then renderTableLines v.data else [])
        ++ [""])).flatten
    ++ ["", "---", ""]
  else []

/-- The numbered reference entries (lines 104-107). -/
def referencesLines (env : RenderEnv) (cits : List Citation) : List String :=
  (cits.enum.map (fun p =>
    splitNl ("[" ++ decStr (p.1 + 1) ++ "] " ++ formatCitationAPA env p.2)
      ++ [""])).flatten

/-- Embedding of `generateMarkdown` (lines 54-115) as the list of lines of
the produced file, in emission order. -/
def mdLines (env : RenderEnv) (r : ResearchReport) : List String :=
  splitNl ("# " ++ r.topic) ++ [""]
  ++ ["---", ""]
  ++ ["**Research Report**", ""]
  ++ splitNl ("**Generated:** " ++ env.toLocaleString r.generatedAt) ++ [""]
  ++ splitNl ("**Number of Sources:** " ++ decStr r.citations.length) ++ [""]
  ++ ["---", ""]
  ++ ["## Abstract", ""] ++ splitNl r.summary ++ [""]
  ++ ["---", ""]
  ++ ["## Table of Contents", ""]
  ++ tocLines r.sections
  ++ splitNl (decStr (r.sections.length + 1) ++ ". [References](#references)")
  ++ ["", "---", ""]
  ++ (r.sections.enum.map (fun p =>
      renderSectionLines r.citations (p.1 + 1) p.2 ++ ["", "---", ""])).flatten
  ++ vizLines r.visualizations
  ++ ["## References", ""]
  ++ referencesLines env r.citations
  ++ [""]

/-- Does a line open a top-level heading under the double-hash convention. -/
def isH2 (l : String) : Bool :=
  decide (l.data.take 3 = ['#', '#', ' '])

/-- Count the top-level headings of the rendered lines. -/
def countH2 (lines : List String) : Nat :=
  lines.countP isH2

/-- A string that stays on one line of the rendered file. -/
def oneLine (s : String) : Prop :=
  '\n' ∉ s.data

instance oneLineDecidable (s : String) : Decidable (oneLine s) :=
  inferInstanceAs (Decidable ('\n' ∉ s.data))

/-- A text none of whose lines fakes a top-level heading. -/
def noH2 (s : String) : Prop :=
  ∀ l ∈ splitNl s, isH2 l = false

instance noH2Decidable (s : String) : Decidable (noH2 s) :=
  inferInstanceAs (Decidable (∀ l ∈ splitNl s, isH2 l = false))

theorem decStrGo_digits :
    ∀ (fuel n : Nat), ∀ c ∈ decStrGo fuel n, '0' ≤ c ∧ c ≤ '9' := by
  intro fuel
  induction fuel with
  | zero => intro n c hc; simp [decStrGo] at hc
  | succ f ih =>
      intro n c hc
      simp only [decStrGo] at hc
      by_cases hn : n < 10
      · rw [if_pos hn] at hc
        simp only [List.mem_singleton] at hc
        subst hc
        interval_cases n <;> exact ⟨by decide, by decide⟩
      · rw [if_neg hn] at hc
        rcases List.mem_append.mp hc with hc | hc
        · exact ih (n / 10) c hc
        · simp only [List.mem_singleton] at hc
          subst hc
          have : n % 10 < 10 := Nat.mod_lt n (by omega)
          interval_cases h : n % 10 <;> exact ⟨by decide, by decide⟩

theorem decStrGo_ne_nil :
    ∀ (fuel n : Nat), 0 < fuel → decStrGo fuel n ≠ [] := by
  intro fuel n hf
  cases fuel with
  | zero => omega
  | succ f =>
      simp only [decStrGo]
      by_cases hn : n < 10
      · simp [if_pos hn]
      · simp [if_neg hn]

theorem decStr_oneLine (n : Nat) : oneLine (decStr n) := by
  intro hc
  have := decStrGo_digits (n + 1) n '\n' hc
  revert this
  decide

theorem decStr_head_digit (n : Nat) :
    ∃ c t, (decStr n).data = c :: t ∧ '0' ≤ c ∧ c ≤ '9' := by
  cases hd : decStrGo (n + 1) n with
  | nil => exact absurd hd (decStrGo_ne_nil (n + 1) n (by omega))
  | cons c t =>
      refine ⟨c, t, hd, ?_⟩
      exact decStrGo_digits (n + 1) n c (by rw [hd]; simp)

theorem oneLine_append {a b : String} (ha : oneLine a) (hb : oneLine b) :
    oneLine (a ++ b) := by
  intro hc
  rw [String.data_append] at hc
  rcases List.mem_append.mp hc with hc | hc
  · exact ha hc
  · exact hb hc

theorem oneLine_of_decide {a : String} (h : ('\n' ∈ a.data) = False) :
    oneLine a := by
  intro hc
  rw [h] at hc
  exact hc

theorem countH2_splitNl_zero {s : String} (h : noH2 s) :
    (splitNl s).countP isH2 = 0 :=
  List.countP_eq_zero.mpr (by intro l hl; simpa using h l hl)

theorem noH2_of_oneLine {s : String} (h1 : oneLine s) (h2 : isH2 s = false) :
    noH2 s := by
  intro l hl
  rw [splitNl_of_no_nl h1] at hl
  simp only [List.mem_singleton] at hl
  subst hl
  exact h2

theorem countH2_splitNl_one {s : String} (h1 : oneLine s) (h2 : isH2 s = true) :
    (splitNl s).countP isH2 = 1 := by
  rw [splitNl_of_no_nl h1]
  simp [List.countP_cons, h2]

theorem isH2_false_of_head {s : String} {c : Char} {t : List Char}
    (hd : s.data = c :: t) (hc : c ≠ '#') : isH2 s = false := by
  simp only [isH2, hd, List.take_succ_cons, decide_eq_false_iff_not]
  intro he
  exact hc (by injection he)

theorem isH2_false_of_three {s : String} {c : Char} {t : List Char}
    (hd : s.data = '#' :: '#' :: c :: t) (hc : c ≠ ' ') : isH2 s = false := by
  simp only [isH2, hd, List.take_succ_cons, List.take_zero,
    decide_eq_false_iff_not]
  intro he
  apply hc
  injection he with h1 h2
  injection h2 with h3 h4
  injection h4 with h5 h6

theorem isH2_true_of_head {s : String} {t : List Char}
    (hd : s.data = '#' :: '#' :: ' ' :: t) : isH2 s = true := by
  simp [isH2, hd]

theorem collapseDash_mem :
    ∀ (l : List Char) (c : Char), c ∈ collapseDash l →
      c = '-' ∨ (c ∈ l ∧ isDashy c = false) := by
  intro l
  induction l with
  | nil => intro c hc; simp [collapseDash] at hc
  | cons c0 cs ih =>
      intro c hc
      simp only [collapseDash] at hc
      by_cases hd : isDashy c0
      · rw [if_pos hd] at hc
        have key : c = '-' ∨ c ∈ collapseDash cs := by
          split at hc
          · rename_i t heq
            rcases List.mem_cons.mp hc with rfl | hmem
            · exact Or.inl rfl
            · right
              rw [heq]
              exact List.mem_cons_of_mem _ hmem
          · rcases List.mem_cons.mp hc with rfl | hmem
            · exact Or.inl rfl
            · exact Or.inr hmem
        rcases key with rfl | hmem
        · exact Or.inl rfl
        · rcases ih c hmem with h | ⟨h1, h2⟩
          · exact Or.inl h
          · exact Or.inr ⟨List.mem_cons_of_mem _ h1, h2⟩
      · rw [if_neg hd] at hc
        rcases List.mem_cons.mp hc with rfl | hmem
        · exact Or.inr ⟨List.mem_cons_self _ _, by simpa using hd⟩
        · rcases ih c hmem with h | ⟨h1, h2⟩
          · exact Or.inl h
          · exact Or.inr ⟨List.mem_cons_of_mem _ h1, h2⟩

theorem slugify_oneLine (s : String) : oneLine (slugify s) := by
  intro hc
  simp only [slugify] at hc
  have h1 := List.mem_reverse.mp hc
  have h2 := (List.dropWhile_sublist _).subset h1
  have h3 := List.mem_reverse.mp h2
  have h4 := (List.dropWhile_sublist _).subset h3
  rcases collapseDash_mem _ '\n' h4 with h | ⟨_, h⟩
  · exact absurd h (by decide)
  · exact absurd h (by decide)

theorem isH2_h2_concat (rest : String) : isH2 ("## " ++ rest) = true := by
  apply isH2_true_of_head (t := rest.data)
  rw [String.data_append]
  rfl

theorem isH2_h3_concat (rest : String) : isH2 ("### " ++ rest) = false := by
  apply isH2_false_of_three (c := '#') (t := ' ' :: rest.data)
  · rw [String.data_append]
    rfl
  · decide

theorem isH2_concat_of_head (lit rest : String) (c : Char) (t : List Char)
    (hd : lit.data = c :: t) (hc : c ≠ '#') : isH2 (lit ++ rest) = false := by
  apply isH2_false_of_head (c := c) (t := t ++ rest.data)
  · rw [String.data_append, hd]
    rfl
  · exact hc

theorem isH2_decStr_concat (n : Nat) (rest : String) :
    isH2 (decStr n ++ rest) = false := by
  obtain ⟨c, t, hd, hc0, hc9⟩ := decStr_head_digit n
  apply isH2_concat_of_head (decStr n) rest c t hd
  intro h
  rw [h] at hc0
  exact absurd hc0 (by decide)

theorem countH2_splitNl_zero_of_oneLine {s : String} (h1 : oneLine s)
    (h2 : isH2 s = false) : (splitNl s).countP isH2 = 0 := by
  rw [splitNl_of_no_nl h1]
  simp [List.countP_cons, h2]

theorem countH2_splitNl_one_of_oneLine {s : String} (h1 : oneLine s)
    (h2 : isH2 s = true) : (splitNl s).countP isH2 = 1 := by
  rw [splitNl_of_no_nl h1]
  simp [List.countP_cons, h2]

theorem citNum_oneLine (cits : List Citation) (cid : String) :
    oneLine (citNum cits cid) := by
  unfold citNum
  cases cits.findIdx? (fun c => c.id == cid) with
  | none => decide
  | some i => exact decStr_oneLine (i + 1)

theorem joinComma_oneLine (l : List String) (h : ∀ x ∈ l, oneLine x) :
    oneLine (joinComma l) := by
  induction l with
  | nil => decide
  | cons x t ih =>
      cases t with
      | nil =>
          simp only [joinComma]
          exact h x (by simp)
      | cons y t2 =>
          simp only [joinComma]
          refine oneLine_append (oneLine_append (h x (by simp)) (by decide)) ?_
          exact ih (fun z hz => h z (List.mem_cons_of_mem _ hz))

theorem refMark_oneLine (cits : List Citation) (ids : List String) :
    oneLine (refMarkLine cits ids) := by
  unfold refMarkLine
  refine oneLine_append (oneLine_append (by decide) ?_) (by decide)
  apply joinComma_oneLine
  intro x hx
  rcases List.mem_map.mp hx with ⟨cid, -, rfl⟩
  exact citNum_oneLine cits cid

theorem refMark_countH2 (cits : List Citation) (ids : List String) :
    (splitNl (refMarkLine cits ids)).countP isH2 = 0 := by
  apply countH2_splitNl_zero_of_oneLine (refMark_oneLine cits ids)
  unfold refMarkLine
  rw [String.append_assoc]
  exact isH2_concat_of_head _ _ '*' "[References: ".data rfl (by decide)

theorem char_ofNat_toNat_valid (k : Nat) (h : k.isValidChar) :
    (Char.ofNat k).toNat = k := by
  unfold Char.ofNat
  rw [dif_pos h]
  rfl

theorem char_ofNat_toNat_invalid (k : Nat) (h : ¬ k.isValidChar) :
    (Char.ofNat k).toNat = 0 := by
  unfold Char.ofNat
  rw [dif_neg h]
  rfl

theorem subLetter_oneLine (j : Nat) : oneLine (subLetter j) := by
  intro hmem
  simp only [subLetter, List.mem_singleton] at hmem
  by_cases hv : (97 + j).isValidChar
  · have h := char_ofNat_toNat_valid (97 + j) hv
    rw [← hmem] at h
    rw [show ('\n').toNat = 10 from rfl] at h
    omega
  · have h := char_ofNat_toNat_invalid (97 + j) hv
    rw [← hmem] at h
    rw [show ('\n').toNat = 10 from rfl] at h
    omega

theorem countH2_subSection (cits : List Citation) (j : Nat) (sub : SubSection)
    (ht : oneLine sub.title) (hc : noH2 sub.content) :
    (subSectionLines cits j sub).countP isH2 = 0 := by
  unfold subSectionLines
  simp only [List.countP_append]
  have h1 : (splitNl ("### " ++ subLetter j ++ ". " ++ sub.title)).countP isH2 = 0 := by
    apply countH2_splitNl_zero_of_oneLine
    · exact oneLine_append (oneLine_append (oneLine_append (by decide)
        (subLetter_oneLine j)) (by decide)) ht
    · rw [String.append_assoc, String.append_assoc]
      exact isH2_h3_concat _
  have h2 : (splitNl sub.content).countP isH2 = 0 := countH2_splitNl_zero hc
  have h3 : (if sub.citations.length > 0 then
      splitNl (refMarkLine cits sub.citations) ++ [""] else []).countP isH2 = 0 := by
    split
    · simp only [List.countP_append, refMark_countH2]
      decide
    · decide
  simp [h1, h2, h3, List.countP_cons, isH2]

theorem countH2_renderSection (cits : List Citation) (num : Nat)
    (s : ResearchSection) (ht : oneLine s.title) (hc : noH2 s.content)
    (hsub : ∀ sub ∈ s.subsections, oneLine sub.title ∧ noH2 sub.content) :
    (renderSectionLines cits num s).countP isH2 = 1 := by
  unfold renderSectionLines
  simp only [List.countP_append]
  have h1 : (splitNl ("## " ++ decStr num ++ ". " ++ s.title)).countP isH2 = 1 := by
    apply countH2_splitNl_one_of_oneLine
    · exact oneLine_append (oneLine_append (oneLine_append (by decide)
        (decStr_oneLine num)) (by decide)) ht
    · rw [String.append_assoc, String.append_assoc]
      exact isH2_h2_concat _
  have h2 : (splitNl s.content).countP isH2 = 0 := countH2_splitNl_zero hc
  have h3 : (if s.citations.length > 0 then
      splitNl (refMarkLine cits s.citations) ++ [""] else []).countP isH2 = 0 := by
    split
    · simp only [List.countP_append, refMark_countH2]
      decide
    · decide
  have h4 : ((s.subsections.enum.map
      (fun p => subSectionLines cits p.1 p.2)).flatten).countP isH2 = 0 := by
    rw [List.countP_flatten]
    apply List.sum_eq_zero
    intro x hx
    rcases List.mem_map.mp hx with ⟨y, hy, rfl⟩
    rcases List.mem_map.mp hy with ⟨p, hp, rfl⟩
    have hm : p.2 ∈ s.subsections := by
      have := List.mem_enum_iff_get?.mp hp
      exact List.get?_mem this
    exact countH2_subSection cits p.1 p.2 (hsub p.2 hm).1 (hsub p.2 hm).2
  simp [h1, h2, h3, h4, List.countP_cons, isH2]

theorem countH2_tocSection (idx : Nat) (s : ResearchSection)
    (ht : oneLine s.title) (hsub : ∀ sub ∈ s.subsections, oneLine sub.title) :
    (tocSectionLines idx s).countP isH2 = 0 := by
  unfold tocSectionLines
  simp only [List.countP_append]
  have h1 : (splitNl (decStr (idx + 1) ++ ". [" ++ s.title ++ "](#"
      ++ slugify s.title ++ ")")).countP isH2 = 0 := by
    apply countH2_splitNl_zero_of_oneLine
    · exact oneLine_append (oneLine_append (oneLine_append (oneLine_append
        (oneLine_append (decStr_oneLine _) (by decide)) ht) (by decide))
        (slugify_oneLine _)) (by decide)
    · rw [String.append_assoc, String.append_assoc, String.append_assoc,
        String.append_assoc]
      exact isH2_decStr_concat _ _
  have h2 : ((s.subsections.enum.map (fun p =>
      splitNl ("   " ++ subLetter p.1 ++ ". [" ++ p.2.title ++ "](#"
        ++ slugify p.2.title ++ ")"))).flatten).countP isH2 = 0 := by
    rw [List.countP_flatten]
    apply List.sum_eq_zero
    intro x hx
    rcases List.mem_map.mp hx with ⟨y, hy, rfl⟩
    rcases List.mem_map.mp hy with ⟨p, hp, rfl⟩
    have hm : p.2 ∈ s.subsections := by
      have := List.mem_enum_iff_get?.mp hp
      exact List.get?_mem this
    apply countH2_splitNl_zero_of_oneLine
    · exact oneLine_append (oneLine_append (oneLine_append (oneLine_append
        (oneLine_append (oneLine_append (by decide) (subLetter_oneLine _))
          (by decide)) (hsub p.2 hm)) (by decide)) (slugify_oneLine _))
        (by decide)
    · rw [String.append_assoc, String.append_assoc, String.append_assoc,
        String.append_assoc, String.append_assoc]
      exact isH2_concat_of_head _ _ ' ' "  ".data rfl (by decide)
  omega

theorem countH2_toc (sections : List ResearchSection)
    (h : ∀ s ∈ sections, oneLine s.title
      ∧ ∀ sub ∈ s.subsections, oneLine sub.title) :
    (tocLines sections).countP isH2 = 0 := by
  unfold tocLines
  rw [List.countP_flatten]
  apply List.sum_eq_zero
  intro x hx
  rcases List.mem_map.mp hx with ⟨y, hy, rfl⟩
  rcases List.mem_map.mp hy with ⟨p, hp, rfl⟩
  have hm : p.2 ∈ sections := by
    have := List.mem_enum_iff_get?.mp hp
    exact List.get?_mem this
  exact countH2_tocSection p.1 p.2 (h p.2 hm).1 (h p.2 hm).2

theorem referencesLines_counts (env : RenderEnv) (cits : List Citation)
    (h : ∀ c ∈ cits, oneLine (formatCitationAPA env c)) :
    (referencesLines env cits).countP isH2 = 0
    ∧ (referencesLines env cits).countP (fun l => l ≠ "") = cits.length := by
  unfold referencesLines
  constructor
  · rw [List.countP_flatten]
    apply List.sum_eq_zero
    intro x hx
    rcases List.mem_map.mp hx with ⟨y, hy, rfl⟩
    rcases List.mem_map.mp hy with ⟨p, hp, rfl⟩
    have hm : p.2 ∈ cits := by
      have := List.mem_enum_iff_get?.mp hp
      exact List.get?_mem this
    simp only [List.countP_append]
    have h1 : (splitNl ("[" ++ decStr (p.1 + 1) ++ "] "
        ++ formatCitationAPA env p.2)).countP isH2 = 0 := by
      apply countH2_splitNl_zero_of_oneLine
      · exact oneLine_append (oneLine_append (oneLine_append (by decide)
          (decStr_oneLine _)) (by decide)) (h p.2 hm)
      · rw [String.append_assoc, String.append_assoc]
        exact isH2_concat_of_head _ _ '[' [] rfl (by decide)
    simp [h1, List.countP_cons, isH2]
  · rw [List.countP_flatten]
    have : (cits.enum.map (fun p =>
        splitNl ("[" ++ decStr (p.1 + 1) ++ "] " ++ formatCitationAPA env p.2)
          ++ [""])).map (List.countP (fun l => decide (l ≠ "")))
        = cits.enum.map (fun _ => 1) := by
      rw [List.map_map]
      apply List.map_congr_left
      intro p hp
      have hm : p.2 ∈ cits := by
        have := List.mem_enum_iff_get?.mp hp
        exact List.get?_mem this
      simp only [Function.comp_apply, List.countP_append]
      have hol : oneLine ("[" ++ decStr (p.1 + 1) ++ "] "
          ++ formatCitationAPA env p.2) :=
        oneLine_append (oneLine_append (oneLine_append (by decide)
          (decStr_oneLine _)) (by decide)) (h p.2 hm)
      rw [splitNl_of_no_nl hol]
      have hne : ("[" ++ decStr (p.1 + 1) ++ "] "
          ++ formatCitationAPA env p.2) ≠ "" := by
        intro he
        have hd : ("[" ++ decStr (p.1 + 1) ++ "] "
            ++ formatCitationAPA env p.2).data = [] := by
          rw [he]
        rw [String.data_append, String.data_append, String.data_append] at hd
        simp at hd
      simp [List.countP_cons, hne]
    rw [this]
    have hone : ∀ {α : Type} (l : List α), (l.map (fun _ => (1 : Nat))).sum = l.length := by
      intro α l
      induction l with
      | nil => rfl
      | cons a t ih => simp [ih]; omega
    rw [hone]
    simp

theorem sum_map_one {α : Type} (l : List α) :
    (l.map (fun _ => (1 : Nat))).sum = l.length := by
  induction l with
  | nil => rfl
  | cons a t ih => simp [ih]; omega

theorem isH2_false_of_second {s : String} {c1 c2 : Char} {t : List Char}
    (hd : s.data = c1 :: c2 :: t) (hc : c2 ≠ '#') : isH2 s = false := by
  simp only [isH2, hd, List.take_succ_cons, decide_eq_false_iff_not]
  intro he
  apply hc
  injection he with h1 h2
  injection h2 with h3 h4

theorem countH2_sections_block (cits : List Citation)
    (sections : List ResearchSection)
    (h : ∀ s ∈ sections, oneLine s.title ∧ noH2 s.content
      ∧ ∀ sub ∈ s.subsections, oneLine sub.title ∧ noH2 sub.content) :
    ((sections.enum.map (fun p =>
      renderSectionLines cits (p.1 + 1) p.2 ++ ["", "---", ""])).flatten).countP
        isH2 = sections.length := by
  rw [List.countP_flatten, List.map_map]
  have heq : sections.enum.map
      ((List.countP isH2) ∘ (fun p =>
        renderSectionLines cits (p.1 + 1) p.2 ++ ["", "---", ""]))
      = sections.enum.map (fun _ => 1) := by
    apply List.map_congr_left
    intro p hp
    have hm : p.2 ∈ sections := List.get?_mem (List.mem_enum_iff_get?.mp hp)
    simp only [Function.comp_apply, List.countP_append]
    rw [countH2_renderSection cits (p.1 + 1) p.2 (h p.2 hm).1 (h p.2 hm).2.1
      (h p.2 hm).2.2]
    rw [show List.countP isH2 ["", "---", ""] = 0 from by decide]
  rw [heq, sum_map_one]
  simp

/-- C8 counterexample: a concrete well-formed one-section one-citation
report renders with four double-hash headings (Abstract, Table of Contents,
the section, References), not the claimed sections-plus-two which would be
three. -/
theorem c8_counterexample :
    countH2 (mdLines
      { toLocaleString := fun s => s, yearOf := fun s => s }
      { topic := "Solar Power", generatedAt := "2024-01-01T00:00:00Z",
        summary := "A short abstract.",
        sections := [{ title := "Findings", content := "All good.",
                       citations := ["cit-1"] }],
        citations := [{ id := "cit-1", title := "Source", url := "https://a.example",
                        accessDate := "2024-01-01" }] }) = 4
    ∧ ([{ title := "Findings", content := "All good.",
          citations := ["cit-1"], subsections := [] }] :
        List ResearchSection).length + 2 = 3 := by
  constructor
  · decide
  · rfl

/-- C8 (amended): for a report whose titles are single-line, whose summary
and section contents contain no line that itself opens a double-hash
heading, whose rendered citations are single-line and which carries no
visualization appendix, the rendered Markdown contains exactly
sections + 3 top-level double-hash headings (Abstract, Table of Contents,
the numbered sections, References) and the References block carries exactly
one numbered entry per citation. -/
theorem c8_markdown_render (env : RenderEnv) (r : ResearchReport)
    (htopic : oneLine r.topic)
    (hgen : oneLine (env.toLocaleString r.generatedAt))
    (hsummary : noH2 r.summary)
    (hsec : ∀ s ∈ r.sections, oneLine s.title ∧ noH2 s.content
      ∧ ∀ sub ∈ s.subsections, oneLine sub.title ∧ noH2 sub.content)
    (hcit : ∀ c ∈ r.citations, oneLine (formatCitationAPA env c))
    (hviz : r.visualizations = []) :
    countH2 (mdLines env r) = r.sections.length + 3
    ∧ (referencesLines env r.citations).countP (fun l => l ≠ "")
      = r.citations.length := by
  refine ⟨?_, (referencesLines_counts env r.citations hcit).2⟩
  unfold countH2 mdLines
  simp only [List.countP_append]
  have ha : (splitNl ("# " ++ r.topic)).countP isH2 = 0 := by
    apply countH2_splitNl_zero_of_oneLine (oneLine_append (by decide) htopic)
    exact @isH2_false_of_second _ '#' ' ' r.topic.data
      (by rw [String.data_append]; rfl) (by decide)
  have hb : (splitNl ("**Generated:** " ++ env.toLocaleString r.generatedAt)).countP
      isH2 = 0 := by
    apply countH2_splitNl_zero_of_oneLine (oneLine_append (by decide) hgen)
    exact isH2_concat_of_head _ _ '*' "*Generated:** ".data rfl (by decide)
  have hc : (splitNl ("**Number of Sources:** "
      ++ decStr r.citations.length)).countP isH2 = 0 := by
    apply countH2_splitNl_zero_of_oneLine
      (oneLine_append (by decide) (decStr_oneLine _))
    exact isH2_concat_of_head _ _ '*' "*Number of Sources:** ".data rfl (by decide)
  have hd : (splitNl r.summary).countP isH2 = 0 := countH2_splitNl_zero hsummary
  have he : (tocLines r.sections).countP isH2 = 0 := by
    apply countH2_toc
    intro s hs
    refine ⟨(hsec s hs).1, ?_⟩
    intro sub hsub2
    exact ((hsec s hs).2.2 sub hsub2).1
  have hf : (splitNl (decStr (r.sections.length + 1)
      ++ ". [References](#references)")).countP isH2 = 0 := by
    apply countH2_splitNl_zero_of_oneLine
      (oneLine_append (decStr_oneLine _) (by decide))
    exact isH2_decStr_concat _ _
  have hg : ((r.sections.enum.map (fun p =>
      renderSectionLines r.citations (p.1 + 1) p.2 ++ ["", "---", ""])).flatten).countP
        isH2 = r.sections.length :=
    countH2_sections_block r.citations r.sections hsec
  have hh : (vizLines r.visualizations).countP isH2 = 0 := by
    rw [hviz]
    decide
  have hi : (referencesLines env r.citations).countP isH2 =
      0 := (referencesLines_counts env r.citations hcit).1
  rw [ha, hb, hc, hd, he, hf, hg, hh, hi]
  rw [show List.countP isH2 [""] = 0 from by decide,
    show List.countP isH2 ["---", ""] = 0 from by decide,
    show List.countP isH2 ["**Research Report**", ""] = 0 from by decide,
    show List.countP isH2 ["## Abstract", ""] = 1 from by decide,
    show List.countP isH2 ["## Table of Contents", ""] = 1 from by decide,
    show List.countP isH2 ["", "---", ""] = 0 from by decide,
    show List.countP isH2 ["## References", ""] = 1 from by decide]
  omega

/-- The ambient date formatting used to instantiate the rendering claims. -/
def sampleEnv : RenderEnv :=
  { toLocaleString := fun s => s, yearOf := fun s => s }

/-- A small well-formed report used to instantiate the rendering claims. -/
def sampleReport : ResearchReport :=
  { topic := "Solar Power", generatedAt := "2024-01-01T00:00:00Z",
    summary := "A short abstract.",
    sections := [{ title := "Findings", content := "All good.",
                   citations := ["cit-1"] }],
    citations := [{ id := "cit-1", title := "Source",
                    url := "https://a.example", accessDate := "2024-01-01" }] }

/-- C8 witness: the amended rendering property at the concrete sample
report. -/
theorem c8_witness :
    oneLine sampleReport.topic
    ∧ oneLine (sampleEnv.toLocaleString sampleReport.generatedAt)
    ∧ noH2 sampleReport.summary
    ∧ (∀ s ∈ sampleReport.sections, oneLine s.title ∧ noH2 s.content
        ∧ ∀ sub ∈ s.subsections, oneLine sub.title ∧ noH2 sub.content)
    ∧ (∀ c ∈ sampleReport.citations, oneLine (formatCitationAPA sampleEnv c))
    ∧ sampleReport.visualizations = []
    ∧ (countH2 (mdLines sampleEnv sampleReport) = sampleReport.sections.length + 3
      ∧ (referencesLines sampleEnv sampleReport.citations).countP (fun l => l ≠ "")
        = sampleReport.citations.length) :=
  ⟨by decide, by decide, by decide, by decide, by decide, rfl,
   c8_markdown_render sampleEnv sampleReport (by decide) (by decide) (by decide)
     (by decide) (by decide) rfl⟩

/-! ## Report file generation (`ReportGenerationService.generateReport`) -/

/-- The configurable output formats. -/
inductive ReportFormat
  | markdown
  | pdf
  | googledocs
deriving DecidableEq

/-- One iteration of the format loop (reportGenerationService lines 29-46):
a successful generation pushes its path, a `googledocs` run may return null
(pushed only if non-null), and a thrown error is caught, logged and skipped. -/
def formatStep (outcomes : ReportFormat → Except String (Option String))
    (acc : List String) (f : ReportFormat) : List String :=
  match outcomes f with
  | Except.ok (some p) => acc ++ [p]
  | Except.ok none => acc
  | Except.error _ => acc

/-- Embedding of `ReportGenerationService.generateReport` (lines 19-49)
above the per-format generators: `outcomes f` is the settled result of
generating format `f` (path, null, or thrown error). -/
def generateReportFiles (outcomes : ReportFormat → Except String (Option String))
    (formats : List ReportFormat) : List String :=
  formats.foldl (formatStep outcomes) []

theorem formatStep_acc (outcomes : ReportFormat → Except String (Option String))
    (formats : List ReportFormat) (acc : List String) :
    formats.foldl (formatStep outcomes) acc
      = acc ++ formats.foldl (formatStep outcomes) [] := by
  induction formats generalizing acc with
  | nil => simp
  | cons f t ih =>
      simp only [List.foldl_cons]
      rw [ih (formatStep outcomes acc f), ih (formatStep outcomes [] f)]
      unfold formatStep
      cases outcomes f with
      | ok op => cases op <;> simp [List.append_assoc]
      | error e => simp

/-- C10: per-format failures are isolated: the produced path list is exactly
the successful non-null generations in configuration order, and a format
whose generation throws is invisible — removing it from the configured list
leaves the result unchanged (so the exception never propagates and the
remaining formats are still attempted). -/
theorem c10_format_isolation
    (outcomes : ReportFormat → Except String (Option String))
    (formats pre post : List ReportFormat) (f : ReportFormat) (e : String)
    (he : outcomes f = Except.error e) :
    generateReportFiles outcomes formats
      = formats.filterMap (fun f2 =>
          match outcomes f2 with
          | Except.ok op => op
          | Except.error _ => none)
    ∧ generateReportFiles outcomes (pre ++ f :: post)
      = generateReportFiles outcomes (pre ++ post) := by
  constructor
  · induction formats with
    | nil => rfl
    | cons g t ih =>
        unfold generateReportFiles at ih ⊢
        simp only [List.foldl_cons, List.filterMap_cons]
        rw [formatStep_acc]
        cases hg : outcomes g with
        | ok op =>
            cases op with
            | some p =>
                rw [show formatStep outcomes [] g = [p] from by
                  simp [formatStep, hg]]
                simp [hg, ih]
            | none =>
                rw [show formatStep outcomes [] g = [] from by
                  simp [formatStep, hg]]
                simp [hg, ih]
        | error e2 =>
            rw [show formatStep outcomes [] g = [] from by
              simp [formatStep, hg]]
            simp [hg, ih]
  · unfold generateReportFiles
    rw [List.foldl_append, List.foldl_append, List.foldl_cons]
    have : formatStep outcomes (pre.foldl (formatStep outcomes) []) f
        = pre.foldl (formatStep outcomes) [] := by
      unfold formatStep
      rw [he]
    rw [this]

/-- Concrete per-format outcomes: markdown succeeds, PDF generation throws,
Google Docs export returns null. -/
def sampleOutcomes : ReportFormat → Except String (Option String) :=
  fun f =>
    match f with
    | ReportFormat.markdown => Except.ok (some "outputs/report.md")
    | ReportFormat.pdf => Except.error "PDFKit stream error"
    | ReportFormat.googledocs => Except.ok none

/-- C10 witness: the isolation property at the concrete outcomes; the
failing PDF format is skipped while markdown still produces its path. -/
theorem c10_witness :
    sampleOutcomes ReportFormat.pdf = Except.error "PDFKit stream error"
    ∧ (generateReportFiles sampleOutcomes
        [ReportFormat.markdown, ReportFormat.pdf, ReportFormat.googledocs]
      = [ReportFormat.markdown, ReportFormat.pdf,
          ReportFormat.googledocs].filterMap (fun f2 =>
            match sampleOutcomes f2 with
            | Except.ok op => op
            | Except.error _ => none)
      ∧ generateReportFiles sampleOutcomes
          ([ReportFormat.markdown] ++ ReportFormat.pdf :: [ReportFormat.googledocs])
        = generateReportFiles sampleOutcomes
            ([ReportFormat.markdown] ++ [ReportFormat.googledocs])) :=
  ⟨rfl,
   c10_format_isolation sampleOutcomes
     [ReportFormat.markdown, ReportFormat.pdf, ReportFormat.googledocs]
     [ReportFormat.markdown] [ReportFormat.googledocs] ReportFormat.pdf
     "PDFKit stream error" rfl⟩
